import Mathlib

/-!
# Family-tree relationship engine: shallow embedding

This file embeds the pure family-relationship engine of the repository
(`apps/web/lib/familyValidations.ts` and `apps/web/lib/treeD3Transform.ts`)
into Lean 4 and proves the specification claims about it.

Modelling conventions:
* `string | null` / `string | undefined` fields become `Option String`;
  JavaScript truthiness of such a field (`if (x)`) is `strTruthy`
  (false for `none` and for the empty string).
* `number` becomes `Int`; truthiness of an optional number (`if (n)`)
  is `intTruthy` (false for `none` and for `0`).
* A JavaScript `Set` of ids in insertion order becomes a `List String`
  grown with `addId` (append if absent), so both membership and
  iteration order are preserved.
* `===` comparisons between an optional field and a string become
  `· == some x`; comparisons between two strings stay `==`.
-/

namespace FamilyTree

/-- Truthiness of a `string | null | undefined` value in JavaScript:
`null`/`undefined` and the empty string are falsy. -/
def strTruthy : Option String → Bool
  | none => false
  | some s => !(s == "")

/-- Truthiness of a `number | undefined` value in JavaScript:
`undefined` and `0` are falsy. -/
def intTruthy : Option Int → Bool
  | none => false
  | some n => !(n == 0)

/-- Id sets kept in insertion order (model of a JavaScript `Set<string>`). -/
abbrev Ids := List String

/-- `set.add(x)`: append `x` if it is not already present. -/
def addId (s : Ids) (x : String) : Ids :=
  if x ∈ s then s else s ++ [x]

/-- The `FamilyMember` record (graph-relevant and display fields of
`packages/types/src/member.types.ts`; the relational back-references and
file attachments carry no graph information and are omitted). -/
structure Member where
  id : String
  firstName : String
  lastName : String
  birthYear : Int
  deathYear : Option Int := none
  gender : Option String := none
  generation : Int := 0
  parentId : Option String := none
  secondParentId : Option String := none
  spouseId : Option String := none
  photoUrl : Option String := none
  occupation : Option String := none
  relationship : Option String := none
deriving DecidableEq, Repr

/-! ## Relationship Classifier (`calculateRelationship`) -/

/-- The `MemberType` union of `familyValidations.ts`. -/
inductive MemberType where
  | ancestor
  | descendant
  | sibling
  | spouse
deriving DecidableEq, Repr

/-- `calculateRelationship` from `familyValidations.ts` (lines 14-60).
Labels are the literal `RelationshipType` strings. -/
def calculateRelationship (memberType : MemberType) (gender : Option String)
    (generationDiff : Int := 1) (isHalfSibling : Bool := false) : String :=
  let isMale := gender == some "male"
  let isFemale := gender == some "female"
  match memberType with
  | .ancestor =>
    if generationDiff == 1 then
      if isMale then "father" else if isFemale then "mother" else "father"
    else if generationDiff == 2 then
      if isMale then "grandfather" else if isFemale then "grandmother" else "grandfather"
    else if generationDiff == 3 then
      if isMale then "great-grandfather" else if isFemale then "great-grandmother"
      else "great-grandfather"
    else
      if isMale then "great-great-grandfather" else if isFemale then "great-great-grandmother"
      else "great-great-grandfather"
  | .descendant =>
    if generationDiff == 1 then
      if isMale then "son" else if isFemale then "daughter" else "son"
    else if generationDiff == 2 then
      if isMale then "grandson" else if isFemale then "granddaughter" else "grandson"
    else if generationDiff == 3 then
      if isMale then "great-grandson" else if isFemale then "great-granddaughter"
      else "great-grandson"
    else
      if isMale then "great-great-grandson" else if isFemale then "great-great-granddaughter"
      else "great-great-grandson"
  | .sibling =>
    if isHalfSibling then
      if isMale then "half-brother" else if isFemale then "half-sister" else "half-brother"
    else
      if isMale then "brother" else if isFemale then "sister" else "brother"
  | .spouse => "spouse"

/-! ## Relationship Deriver (`familyValidations.ts`) -/

/-- `getChildrenOf` (lines 95-97): members having `memberId` in either parent slot. -/
def getChildrenOf (memberId : String) (members : List Member) : List Member :=
  members.filter fun m => m.parentId == some memberId || m.secondParentId == some memberId

/-- `getParentsOf` (lines 100-111). -/
def getParentsOf (member : Member) (members : List Member) : List Member :=
  let parents : List Member := []
  let parents := match member.parentId with
    | some pid =>
      if strTruthy (some pid) then
        match members.find? (fun m => m.id == pid) with
        | some parent => parents ++ [parent]
        | none => parents
      else parents
    | none => parents
  match member.secondParentId with
  | some pid =>
    if strTruthy (some pid) then
      match members.find? (fun m => m.id == pid) with
      | some parent => parents ++ [parent]
      | none => parents
    else parents
  | none => parents

/-- `areSpouses` (lines 114-119): the two ids occupy the two parent slots of
some common child. -/
def areSpouses (member1Id member2Id : String) (members : List Member) : Bool :=
  members.any fun m =>
    (m.parentId == some member1Id && m.secondParentId == some member2Id) ||
    (m.parentId == some member2Id && m.secondParentId == some member1Id)

/-- One iteration of the shared-children id loop (lines 124-131 and 56-63):
if the member has `memberId` in one parent slot and a truthy id in the other
slot, add the other slot's id. -/
def sharedChildStep (memberId : String) (acc : Ids) (m : Member) : Ids :=
  let acc := match m.secondParentId with
    | some s => if m.parentId == some memberId && strTruthy (some s) then addId acc s else acc
    | none => acc
  match m.parentId with
  | some p => if m.secondParentId == some memberId && strTruthy (some p) then addId acc p else acc
  | none => acc

/-- The id accumulation loop of `getSpousesOf` (lines 124-131). -/
def sharedChildSpouseIds (memberId : String) (members : List Member) : Ids :=
  members.foldl (sharedChildStep memberId) []

/-- `getSpousesOf` (lines 122-135): spouses-by-shared-children only; resolve
each collected id back to a member record, dropping unresolvable ids. -/
def getSpousesOf (memberId : String) (members : List Member) : List Member :=
  (sharedChildSpouseIds memberId members).filterMap fun i =>
    members.find? fun m => m.id == i

/-- `getSiblingsOf` (lines 172-198): partition the other members into full and
half siblings of the reference member. -/
def getSiblingsOf (memberId : String) (members : List Member) :
    List Member × List Member :=
  match members.find? (fun m => m.id == memberId) with
  | none => ([], [])
  | some member =>
    members.foldl
      (fun (acc : List Member × List Member) m =>
        if m.id == memberId then acc
        else
          let sharesParent1 := strTruthy member.parentId &&
            (m.parentId == member.parentId || m.secondParentId == member.parentId)
          let sharesParent2 := strTruthy member.secondParentId &&
            (m.parentId == member.secondParentId || m.secondParentId == member.secondParentId)
          if sharesParent1 && sharesParent2 && strTruthy member.parentId &&
              strTruthy member.secondParentId then
            (acc.1 ++ [m], acc.2)
          else if sharesParent1 || sharesParent2 then
            (acc.1, acc.2 ++ [m])
          else acc)
      ([], [])

/-- `getAllAncestors` (lines 138-154), fuelled.  The source recursion is
well-founded because an id is added to `visited` before every recursive call;
`fuel` bounds the recursion depth and `getAllAncestors` below instantiates it
large enough to never run out (each call consumes one unit and adds one id).
At fuel `0` the function behaves like the source's base case on an
already-visited id (it returns `visited` unchanged), which is provably what
every recursive call of the source does anyway, since the callee's first line
checks the id that the caller just inserted. -/
def getAllAncestorsF : Nat → String → List Member → Ids → Ids
  | 0, _, _, visited => visited
  | fuel + 1, memberId, members, visited =>
    if memberId ∈ visited then visited
    else
      match members.find? (fun m => m.id == memberId) with
      | none => visited
      | some member =>
        let visited1 := match member.parentId with
          | some p =>
            if strTruthy (some p) && !(p ∈ visited) then
              getAllAncestorsF fuel p members (addId visited p)
            else visited
          | none => visited
        match member.secondParentId with
        | some p =>
          if strTruthy (some p) && !(p ∈ visited1) then
            getAllAncestorsF fuel p members (addId visited1 p)
          else visited1
        | none => visited1

/-- `getAllAncestors(memberId, members, visited)` with fuel `members.length + 1`. -/
def getAllAncestors (memberId : String) (members : List Member) (visited : Ids) : Ids :=
  getAllAncestorsF (members.length + 1) memberId members visited

mutual
/-- `getAllDescendants` (lines 157-169), fuelled like `getAllAncestorsF`. -/
def getAllDescendantsF : Nat → String → List Member → Ids → Ids
  | 0, _, _, visited => visited
  | fuel + 1, memberId, members, visited =>
    if memberId ∈ visited then visited
    else descendantsLoop fuel (getChildrenOf memberId members) members visited

/-- The `for (const child of children)` loop of `getAllDescendants`, threading
the mutated `visited` set. -/
def descendantsLoop : Nat → List Member → List Member → Ids → Ids
  | _, [], _, visited => visited
  | fuel, child :: rest, members, visited =>
    let visited' :=
      if child.id ∈ visited then visited
      else getAllDescendantsF fuel child.id members (addId visited child.id)
    descendantsLoop fuel rest members visited'
end

/-- `getAllDescendants(memberId, members, visited)` with fuel `members.length + 1`. -/
def getAllDescendants (memberId : String) (members : List Member) (visited : Ids) : Ids :=
  getAllDescendantsF (members.length + 1) memberId members visited

/-! ## Edit Validator (`familyValidations.ts`) -/

/-- The `ValidationResult` interface (lines 201-205). -/
structure ValidationResult where
  isValid : Bool
  error : Option String := none
  warning : Option String := none
deriving DecidableEq, Repr

/-- `MIN_PARENT_AGE` (line 293). -/
def MIN_PARENT_AGE : Int := 12

/-- `validateNotSelfParent` (lines 208-217). -/
def validateNotSelfParent (memberId parentId secondParentId : Option String) :
    ValidationResult :=
  if strTruthy memberId && (parentId == memberId || secondParentId == memberId) then
    { isValid := false, error := some "A person cannot be their own parent." }
  else { isValid := true }

/-- `validateDifferentParents` (lines 220-228). -/
def validateDifferentParents (parentId secondParentId : Option String) :
    ValidationResult :=
  if strTruthy parentId && strTruthy secondParentId && parentId == secondParentId then
    { isValid := false, error := some "First and second parent cannot be the same person." }
  else { isValid := true }

/-- First-name lookup used in error messages: `members.find(...)?.firstName ?? fallback`
(nullish coalescing: an empty first name is kept). -/
def firstNameOr (pid : String) (members : List Member) (fallback : String) : String :=
  match members.find? (fun m => m.id == pid) with
  | some p => p.firstName
  | none => fallback

/-- First-name lookup used in error messages: `members.find(...)?.firstName || fallback`
(truthy coalescing: an empty first name falls back too). -/
def firstNameOrT (pid : String) (members : List Member) (fallback : String) : String :=
  match members.find? (fun m => m.id == pid) with
  | some p => if p.firstName == "" then fallback else p.firstName
  | none => fallback

/-- `validateNoCircularRelationship` (lines 231-260). -/
def validateNoCircularRelationship (newMemberId parentId secondParentId : Option String)
    (members : List Member) : ValidationResult :=
  if !(strTruthy newMemberId) then { isValid := true }
  else
    let mid := newMemberId.getD ""
    let descendants := getAllDescendants mid members []
    match parentId with
    | some pid =>
      if strTruthy (some pid) && pid ∈ descendants then
        { isValid := false
          error := some ("Cannot set " ++ firstNameOrT pid members "this person" ++
            " as parent - they are a descendant of this person (circular relationship).") }
      else
        match secondParentId with
        | some sid =>
          if strTruthy (some sid) && sid ∈ descendants then
            { isValid := false
              error := some ("Cannot set " ++ firstNameOrT sid members "this person" ++
                " as parent - they are a descendant of this person (circular relationship).") }
          else { isValid := true }
        | none => { isValid := true }
    | none =>
      match secondParentId with
      | some sid =>
        if strTruthy (some sid) && sid ∈ descendants then
          { isValid := false
            error := some ("Cannot set " ++ firstNameOrT sid members "this person" ++
              " as parent - they are a descendant of this person (circular relationship).") }
        else { isValid := true }
      | none => { isValid := true }

/-- `validateGenerationConsistency` (lines 263-290): warning only. -/
def validateGenerationConsistency (memberGeneration : Int)
    (parentId secondParentId : Option String) (members : List Member) : ValidationResult :=
  let warnFor : String → Option ValidationResult := fun pid =>
    match members.find? (fun m => m.id == pid) with
    | some parent =>
      if parent.generation ≥ memberGeneration then
        some { isValid := false
               warning := some ("Warning: " ++ parent.firstName ++ " (generation " ++
                 toString parent.generation ++
                 ") should be from an earlier generation than the child (generation " ++
                 toString memberGeneration ++ ").") }
      else none
    | none => none
  match parentId with
  | some pid =>
    if strTruthy (some pid) then
      match warnFor pid with
      | some r => r
      | none =>
        match secondParentId with
        | some sid =>
          if strTruthy (some sid) then
            match warnFor sid with
            | some r => r
            | none => { isValid := true }
          else { isValid := true }
        | none => { isValid := true }
    else
      match secondParentId with
      | some sid =>
        if strTruthy (some sid) then
          match warnFor sid with
          | some r => r
          | none => { isValid := true }
        else { isValid := true }
      | none => { isValid := true }
  | none =>
    match secondParentId with
    | some sid =>
      if strTruthy (some sid) then
        match warnFor sid with
        | some r => r
        | none => { isValid := true }
      else { isValid := true }
    | none => { isValid := true }

/-- The per-parent error message list of `validateBirthYearConsistency`
(lines 304-328): returns the errors contributed by one resolved parent id. -/
def birthYearErrorsFor (childBirthYear : Int) (pid : String) (members : List Member) :
    List String :=
  match members.find? (fun m => m.id == pid) with
  | none => []
  | some parent =>
    let ageDiff := childBirthYear - parent.birthYear
    if ageDiff < 0 then
      [parent.firstName ++ " was born in " ++ toString parent.birthYear ++
        ". A child cannot be born before their parent (" ++ toString childBirthYear ++ ")."]
    else if ageDiff < MIN_PARENT_AGE then
      [parent.firstName ++ " was born in " ++ toString parent.birthYear ++
        ". They would have been only " ++ toString ageDiff ++
        " years old when the child was born (" ++ toString childBirthYear ++
        "). Minimum parent age is " ++ toString MIN_PARENT_AGE ++ "."]
    else []

/-- `validateBirthYearConsistency` (lines 296-335). -/
def validateBirthYearConsistency (childBirthYear : Option Int)
    (parentId secondParentId : Option String) (members : List Member) : ValidationResult :=
  if !(intTruthy childBirthYear) then { isValid := true }
  else
    let y := childBirthYear.getD 0
    let errors : List String := []
    let errors := errors ++ (match parentId with
      | some pid => if strTruthy (some pid) then birthYearErrorsFor y pid members else []
      | none => [])
    let errors := errors ++ (match secondParentId with
      | some pid => if strTruthy (some pid) then birthYearErrorsFor y pid members else []
      | none => [])
    match errors with
    | [] => { isValid := true }
    | e :: _ => { isValid := false, error := some e }

/-- `validateAncestorAge` (lines 338-367). -/
def validateAncestorAge (ancestorBirthYear : Option Int) (descendantId : Option String)
    (members : List Member) (generationDiff : Int := 1) : ValidationResult :=
  if !(intTruthy ancestorBirthYear) || !(strTruthy descendantId) then { isValid := true }
  else
    match members.find? (fun m => m.id == descendantId.getD "") with
    | none => { isValid := true }
    | some descendant =>
      let minAgeDiff := MIN_PARENT_AGE * generationDiff
      let actualAgeDiff := descendant.birthYear - ancestorBirthYear.getD 0
      if actualAgeDiff < 0 then
        { isValid := false
          error := some ("An ancestor cannot be younger than their descendant. " ++
            descendant.firstName ++ " was born in " ++ toString descendant.birthYear ++ ".") }
      else if actualAgeDiff < minAgeDiff then
        { isValid := false
          error := some ("The ancestor would have been only " ++ toString actualAgeDiff ++
            " years old when " ++ descendant.firstName ++ " was born. For " ++
            toString generationDiff ++ " generation(s) difference, minimum is " ++
            toString minAgeDiff ++ " years.") }
      else { isValid := true }

/-- `validateParentsSameGeneration` (lines 370-388): warning only. -/
def validateParentsSameGeneration (parentId secondParentId : Option String)
    (members : List Member) : ValidationResult :=
  if !(strTruthy parentId) || !(strTruthy secondParentId) then { isValid := true }
  else
    match members.find? (fun m => m.id == parentId.getD ""),
          members.find? (fun m => m.id == secondParentId.getD "") with
    | some parent1, some parent2 =>
      if !(parent1.generation == parent2.generation) then
        { isValid := true
          warning := some ("Note: " ++ parent1.firstName ++ " (generation " ++
            toString parent1.generation ++ ") and " ++ parent2.firstName ++
            " (generation " ++ toString parent2.generation ++
            ") are from different generations.") }
      else { isValid := true }
    | _, _ => { isValid := true }

/-- `validateHalfSiblingRelationship` (lines 391-414). -/
def validateHalfSiblingRelationship (parentId secondParentId : Option String)
    (members : List Member) (isHalfSibling : Bool := false) : ValidationResult :=
  if !(strTruthy parentId) then { isValid := true }
  else
    match secondParentId with
    | some sid =>
      if strTruthy (some sid) then
        let isExistingSpouse := areSpouses (parentId.getD "") sid members
        if isExistingSpouse && isHalfSibling then
          let n1 := firstNameOr (parentId.getD "") members "First parent"
          let n2 := firstNameOr sid members "second parent"
          { isValid := false
            error := some (n1 ++ " and " ++ n2 ++
              " already have children together. A half-sibling cannot have the same two parents - that would make them a full sibling.") }
        else { isValid := true }
      else { isValid := true }
    | none => { isValid := true }

/-- `checkNewParentalRelationship` (lines 417-453): warning only. -/
def checkNewParentalRelationship (parentId secondParentId : Option String)
    (members : List Member) : ValidationResult :=
  if !(strTruthy parentId) || !(strTruthy secondParentId) then { isValid := true }
  else
    let pid := parentId.getD ""
    let sid := secondParentId.getD ""
    let alreadySpouses := areSpouses pid sid members
    if alreadySpouses then { isValid := true }
    else
      match members.find? (fun m => m.id == pid), members.find? (fun m => m.id == sid) with
      | some parent1, some parent2 =>
        let parent1Spouses := getSpousesOf pid members
        let parent2Spouses := getSpousesOf sid members
        if parent1Spouses.length > 0 && parent2Spouses.length > 0 then
          { isValid := true
            warning := some ("This will create a new parental relationship between " ++
              parent1.firstName ++ " and " ++ parent2.firstName ++
              ". Both already have other partners in the tree.") }
        else if parent1Spouses.length > 0 then
          { isValid := true
            warning := some (parent1.firstName ++ " already has children with " ++
              String.intercalate ", " (parent1Spouses.map (·.firstName)) ++
              ". This creates a new relationship with " ++ parent2.firstName ++ ".") }
        else if parent2Spouses.length > 0 then
          { isValid := true
            warning := some (parent2.firstName ++ " already has children with " ++
              String.intercalate ", " (parent2Spouses.map (·.firstName)) ++
              ". This creates a new relationship with " ++ parent1.firstName ++ ".") }
        else { isValid := true }
      | _, _ => { isValid := true }

/-- Push an error (resp. warning) into the accumulated lists as
`runAllValidations` does for one `ValidationResult`. -/
def pushResult (acc : List String × List String) (r : ValidationResult)
    (takeError takeWarning : Bool) : List String × List String :=
  let acc := if takeError && !r.isValid then
      match r.error with
      | some e => (acc.1 ++ [e], acc.2)
      | none => acc
    else acc
  if takeWarning then
    match r.warning with
    | some w => (acc.1, acc.2 ++ [w])
    | none => acc
  else acc

/-- `runAllValidations` (lines 506-563). -/
def runAllValidations (memberId parentId secondParentId : Option String)
    (memberGeneration : Int) (members : List Member) (isHalfSibling : Bool := false)
    (birthYear : Option Int := none) (memberType : Option MemberType := none)
    (relatedToId : Option String := none) : List String × List String :=
  let acc : List String × List String := ([], [])
  let acc := pushResult acc (validateNotSelfParent memberId parentId secondParentId) true false
  let acc := pushResult acc (validateDifferentParents parentId secondParentId) true false
  let acc := pushResult acc
    (validateNoCircularRelationship memberId parentId secondParentId members) true false
  let acc := pushResult acc
    (validateGenerationConsistency memberGeneration parentId secondParentId members) false true
  let acc := pushResult acc (validateParentsSameGeneration parentId secondParentId members)
    false true
  let acc := pushResult acc
    (validateHalfSiblingRelationship parentId secondParentId members isHalfSibling) true true
  let acc := pushResult acc (checkNewParentalRelationship parentId secondParentId members)
    false true
  let acc :=
    if intTruthy birthYear &&
        (memberType == some MemberType.descendant || memberType == some MemberType.sibling ||
          (memberType == none && (strTruthy parentId || strTruthy secondParentId))) then
      pushResult acc (validateBirthYearConsistency birthYear parentId secondParentId members)
        true false
    else acc
  if intTruthy birthYear && memberType == some MemberType.ancestor && strTruthy relatedToId then
    pushResult acc (validateAncestorAge birthYear relatedToId members 1) true false
  else acc

/-! ## Tree Builder (`treeD3Transform.ts`) -/

/-- `SpouseInfo` (lines 4-13). -/
structure SpouseInfo where
  id : String
  name : String
  firstName : String
  photoUrl : Option String := none
  gender : Option String := none
  birthYear : Int
  appearsElsewhere : Bool
deriving DecidableEq, Repr

/-- The `attributes` record of `FamilyNodeData` (lines 16-29). -/
structure NodeAttributes where
  id : String
  birthYear : Int
  deathYear : Option Int := none
  gender : Option String := none
  photoUrl : Option String := none
  occupation : Option String := none
  relationship : Option String := none
  generation : Int
  spouses : List SpouseInfo
deriving DecidableEq, Repr

/-- `FamilyNodeData` (lines 16-31).  The source leaves `children` unset for a
leaf and assigns a non-empty array otherwise; both are modelled by the
`children` list (empty for a leaf). -/
inductive FamilyNodeData where
  | mk (name : String) (attributes : NodeAttributes) (children : List FamilyNodeData)

/-- Node display name. -/
def FamilyNodeData.name : FamilyNodeData → String
  | .mk n _ _ => n

/-- Node attributes. -/
def FamilyNodeData.attributes : FamilyNodeData → NodeAttributes
  | .mk _ a _ => a

/-- Node children. -/
def FamilyNodeData.children : FamilyNodeData → List FamilyNodeData
  | .mk _ _ c => c

/-- `node.children = childNodes`. -/
def setChildren : FamilyNodeData → List FamilyNodeData → FamilyNodeData
  | .mk n a _, cs => .mk n a cs

/-- One iteration of the reverse `spouseId` loop of `getSpouses`
(lines 49-53): add the id of any member whose `spouseId` is `memberId`. -/
def spouseBackStep (memberId : String) (acc : Ids) (m : Member) : Ids :=
  if m.spouseId == some memberId then addId acc m.id else acc

/-- `getSpouses` (lines 36-66): explicit `spouseId` link in both directions
plus spouses-by-shared-children, collected into an id set, then resolved by
filtering the member list. -/
def getSpouses (memberId : String) (members : List Member) : List Member :=
  let spouseIds : Ids := match members.find? (fun m => m.id == memberId) with
    | some member =>
      match member.spouseId with
      | some s => if strTruthy (some s) then addId [] s else []
      | none => []
    | none => []
  let spouseIds := members.foldl (spouseBackStep memberId) spouseIds
  let spouseIds := members.foldl (sharedChildStep memberId) spouseIds
  members.filter fun m => decide (m.id ∈ spouseIds)

/-- `getDirectChildren` (lines 71-76). -/
def getDirectChildren (memberId : String) (members : List Member) : List Member :=
  members.filter fun m => m.parentId == some memberId || m.secondParentId == some memberId

/-- The repeated `parentId && memberIds.has(parentId)` test: the optional id is
truthy and resolves inside the member id set. -/
def inTreeParent (pid : Option String) (memberIds : List String) : Bool :=
  match pid with
  | some p => strTruthy (some p) && decide (p ∈ memberIds)
  | none => false

/-- `findRoots` (lines 82-90): members with no in-tree parent. -/
def findRoots (members : List Member) : List Member :=
  let memberIds := members.map (·.id)
  members.filter fun m =>
    !(inTreeParent m.parentId memberIds) && !(inTreeParent m.secondParentId memberIds)

/-- `hasParentsInTree` (lines 160-168). -/
def hasParentsInTree (memberId : String) (members : List Member) : Bool :=
  match members.find? (fun m => m.id == memberId) with
  | none => false
  | some member =>
    let memberIds := members.map (·.id)
    inTreeParent member.parentId memberIds || inTreeParent member.secondParentId memberIds

/-- `filterSpouseOnlyRoots` (lines 96-117): drop root candidates having a
spouse with an in-tree parent. -/
def filterSpouseOnlyRoots (roots : List Member) (members : List Member) : List Member :=
  let memberIds := members.map (·.id)
  roots.filter fun root =>
    !((getSpouses root.id members).any fun spouse =>
      inTreeParent spouse.parentId memberIds || inTreeParent spouse.secondParentId memberIds)

/-- `memberToNode` (lines 123-155). -/
def memberToNode (member : Member) (calculatedGen : Int)
    (allSpouses : List Member) (members : List Member) : FamilyNodeData :=
  let spousesInfo : List SpouseInfo := allSpouses.map fun spouse =>
    { id := spouse.id
      name := spouse.firstName ++ " " ++ spouse.lastName
      firstName := spouse.firstName
      photoUrl := spouse.photoUrl
      gender := spouse.gender
      birthYear := spouse.birthYear
      appearsElsewhere := hasParentsInTree spouse.id members }
  .mk (member.firstName ++ " " ++ member.lastName)
    { id := member.id
      birthYear := member.birthYear
      deathYear := member.deathYear
      gender := member.gender
      photoUrl := member.photoUrl
      occupation := member.occupation
      relationship := member.relationship
      generation := calculatedGen
      spouses := spousesInfo }
    []

/-- The spouse-marking loop of `buildSubtree` (lines 189-193): mark each spouse
as processed only if it has no parents in the tree. -/
def markSpouses (allSpouses : List Member) (members : List Member) (processedIds : Ids) : Ids :=
  allSpouses.foldl
    (fun acc spouse =>
      if !(hasParentsInTree spouse.id members) && !(decide (spouse.id ∈ acc)) then
        addId acc spouse.id
      else acc)
    processedIds

/-- The child-id collection of `buildSubtree` (lines 199-207): children of the
primary member, then children of every spouse, deduplicated in insertion
order. -/
def collectChildIds (primaryId : String) (allSpouses : List Member)
    (members : List Member) : Ids :=
  let childIds := (getDirectChildren primaryId members).foldl (fun acc c => addId acc c.id) []
  allSpouses.foldl
    (fun acc spouse => (getDirectChildren spouse.id members).foldl (fun a c => addId a c.id) acc)
    childIds

/-- One iteration of the child loop of `buildSubtree` (lines 210-218): skip
processed ids, resolve the rest and recurse (through the `build` callback),
threading the processed set.  A `none` (exhausted fuel) aborts the loop. -/
def childStep (build : Member → Ids → Option (FamilyNodeData × Ids))
    (members : List Member) (acc : Option (List FamilyNodeData × Ids))
    (childId : String) : Option (List FamilyNodeData × Ids) :=
  match acc with
  | none => none
  | some (nodes, processedIds) =>
    if childId ∈ processedIds then some (nodes, processedIds)
    else
      match members.find? (fun m => m.id == childId) with
      | none => some (nodes, processedIds)
      | some child =>
        match build child processedIds with
        | none => none
        | some (node, processedIds) => some (nodes ++ [node], processedIds)

/-- `buildSubtree` (lines 176-225), fuelled: `none` when the fuel runs out.
The source recursion terminates because every recursive call is on a child id
that is not yet in the shared `processedIds` set and immediately inserts it,
so one fuel unit per recursion depth with the wrapper fuel below
(`members.length + 1`) provably never runs out. -/
def buildSubtreeF : Nat → List Member → Member → Ids → Int → Option (FamilyNodeData × Ids)
  | 0, _, _, _, _ => none
  | fuel + 1, members, primaryMember, processedIds, currentGeneration =>
    let processedIds := addId processedIds primaryMember.id
    let allSpouses := getSpouses primaryMember.id members
    let processedIds := markSpouses allSpouses members processedIds
    let node := memberToNode primaryMember currentGeneration allSpouses members
    let childIds := collectChildIds primaryMember.id allSpouses members
    match childIds.foldl
        (childStep (fun child processedIds =>
          buildSubtreeF fuel members child processedIds (currentGeneration + 1)) members)
        (some ([], processedIds)) with
    | none => none
    | some (childNodes, processedIds) =>
      some (if childNodes.length > 0 then setChildren node childNodes else node, processedIds)

/-- `buildSubtree` with fuel `members.length + 1`, which is proved sufficient
below (`buildSubtreeF_isSome`); the fallback value is never reached. -/
def buildSubtree (members : List Member) (primaryMember : Member) (processedIds : Ids)
    (currentGeneration : Int) : FamilyNodeData × Ids :=
  (buildSubtreeF (members.length + 1) members primaryMember processedIds
      currentGeneration).getD
    (memberToNode primaryMember currentGeneration [] members, processedIds)

/-- One iteration of the root loop of `transformToTreeData` (lines 258-300).
Its body performs exactly the steps of `buildSubtree` at generation `0`
(mark root, mark parentless spouses, build the node, collect the children of
root and spouses, recurse at generation `1`), guarded by a processed check. -/
def rootStep (members : List Member) (acc : List FamilyNodeData × Ids) (root : Member) :
    List FamilyNodeData × Ids :=
  if root.id ∈ acc.2 then acc
  else
    let (node, processedIds) := buildSubtree members root acc.2 0
    (acc.1 ++ [node], processedIds)

/-- The trailing loop of `transformToTreeData` (lines 302-306): every member
missing from `processedIds` after the root loop is emitted as an extra
top-level root.  Note the `remaining` list is computed once, before the loop
runs. -/
def remainingStep (members : List Member) (acc : List FamilyNodeData × Ids) (member : Member) :
    List FamilyNodeData × Ids :=
  let (node, processedIds) := buildSubtree members member acc.2 0
  (acc.1 ++ [node], processedIds)

/-- `transformToTreeData` (lines 233-325). -/
def transformToTreeData (members : List Member) : Option FamilyNodeData :=
  match members with
  | [] => none
  | m0 :: _ =>
    let potentialRoots := findRoots members
    let trueRoots := filterSpouseOnlyRoots potentialRoots members
    let roots := if trueRoots.length > 0 then trueRoots else potentialRoots
    if roots.length == 0 then
      some (buildSubtree members m0 [] 0).1
    else
      let (rootNodes, processedIds) := roots.foldl (rootStep members) ([], [])
      let remaining := members.filter fun m => !(decide (m.id ∈ processedIds))
      let (rootNodes, _) := remaining.foldl (remainingStep members) (rootNodes, processedIds)
      if rootNodes.length == 1 then rootNodes.head?
      else if rootNodes.length == 0 then none
      else
        some (.mk "Family"
          { id := "root", birthYear := 0, generation := -1, spouses := [] }
          rootNodes)

mutual
/-- The member ids reachable from a node through its own `attributes.id` and
the transitive `children` lists, in preorder. -/
def collectIds : FamilyNodeData → List String
  | .mk _ a cs => a.id :: collectIdsList cs

/-- `collectIds` over a list of nodes. -/
def collectIdsList : List FamilyNodeData → List String
  | [] => []
  | c :: cs => collectIds c ++ collectIdsList cs
end

/-- `collectIds` of an optional tree (empty for `none`). -/
def optCollectIds : Option FamilyNodeData → List String
  | none => []
  | some n => collectIds n

/-! ## Specification-side predicates and concrete inputs used by the claims -/

/-- `x` occupies a parent slot of `m`. -/
def inSlots (x : String) (m : Member) : Prop :=
  m.parentId = some x ∨ m.secondParentId = some x

instance (x : String) (m : Member) : Decidable (inSlots x m) := by
  unfold inSlots; infer_instance

/-- Spec §4.1 / claim C2, shared-children component: some member carries
`memberId` in one parent slot and `x` in the other. -/
def specSharedChildSpouse (memberId x : String) (members : List Member) : Prop :=
  ∃ c ∈ members,
    (c.parentId = some memberId ∧ c.secondParentId = some x) ∨
    (c.secondParentId = some memberId ∧ c.parentId = some x)

instance (memberId x : String) (members : List Member) :
    Decidable (specSharedChildSpouse memberId x members) := by
  unfold specSharedChildSpouse; infer_instance

/-- The spouse union stated by spec §4.1 for `spousesOf` (claim C2): explicit
`spouseId` link in either direction, or spouses-by-shared-children. -/
def specSpouseUnion (memberId x : String) (members : List Member) : Prop :=
  (∃ m ∈ members, m.id = memberId ∧ m.spouseId = some x) ∨
  (∃ m ∈ members, m.spouseId = some memberId ∧ m.id = x) ∨
  specSharedChildSpouse memberId x members

instance (memberId x : String) (members : List Member) :
    Decidable (specSpouseUnion memberId x members) := by
  unfold specSpouseUnion; infer_instance

/-- A member record with only the graph-relevant fields set. -/
def mkMember (i : String) (p sp spo : Option String := none) (by_ : Int := 1950) : Member :=
  { id := i, firstName := i, lastName := "X", birthYear := by_,
    parentId := p, secondParentId := sp, spouseId := spo }

/-- C1 counterexample input: a single connected, acyclic lineage where `c` is
the child of the two parentless partners `r` and `s`. -/
def c1CounterMembers : List Member :=
  [mkMember "r", mkMember "s", mkMember "c" (some "r") (some "s")]

/-- C1 witness input: a two-member single-parent chain `r ← c`. -/
def c1WitnessMembers : List Member :=
  [mkMember "r", mkMember "c" (some "r")]

/-- C2 counterexample input: `a` and `b` linked only by `a.spouseId = "b"`,
with no shared children. -/
def c2CounterMembers : List Member :=
  [mkMember "a" none none (some "b"), mkMember "b"]

/-- C6 failing input: the parent chain `a ← b ← c`. -/
def c6BugMembers : List Member :=
  [mkMember "a", mkMember "b" (some "a"), mkMember "c" (some "b")]

/-- C10 counterexample input: a standalone root `r` plus a two-member parent
cycle `x ⇄ z` that is unreachable from any root. -/
def c10CounterMembers : List Member :=
  [mkMember "r", mkMember "x" (some "z"), mkMember "z" (some "x")]

/-- C4 witness input: a proposed parent born 1990. -/
def c4WitnessMembers : List Member :=
  [mkMember "p" none none none 1990]

/-- C3 witness input: a known descendant born 2000. -/
def c3WitnessMembers : List Member :=
  [mkMember "d" none none none 2000]

/-- C5 witness input: reference member `m` with parents `p`,`q`; `f` shares
both, `h` and `h2` share one each, `n` shares none. -/
def c5WitnessMembers : List Member :=
  [mkMember "m" (some "p") (some "q"), mkMember "f" (some "p") (some "q"),
   mkMember "h" (some "p"), mkMember "n", mkMember "h2" none (some "q")]

/-- C7 witness input: `a` and `b` are co-parents of the shared child `c`. -/
def c7WitnessMembers : List Member :=
  [mkMember "a", mkMember "b", mkMember "c" (some "a") (some "b")]

/-- The `sharesParent1` test of `getSiblingsOf` (line 185). -/
def sibShares1 (member m : Member) : Bool :=
  strTruthy member.parentId &&
    (m.parentId == member.parentId || m.secondParentId == member.parentId)

/-- The `sharesParent2` test of `getSiblingsOf` (line 186). -/
def sibShares2 (member m : Member) : Bool :=
  strTruthy member.secondParentId &&
    (m.parentId == member.secondParentId || m.secondParentId == member.secondParentId)

/-- The full-sibling test of `getSiblingsOf` (line 188). -/
def sibFull (member m : Member) : Bool :=
  sibShares1 member m && sibShares2 member m && strTruthy member.parentId &&
    strTruthy member.secondParentId

/-- The half-sibling test of `getSiblingsOf` (line 191). -/
def sibHalf (member m : Member) : Bool :=
  sibShares1 member m || sibShares2 member m

/-- Number of member ids not yet in the processed set: the decreasing measure
of the `buildSubtree` recursion. -/
def unprocessedCount (members : List Member) (p : Ids) : Nat :=
  ((members.map Member.id).toFinset \ p.toFinset).card

/-! ## Basic lemmas about the set model -/

theorem mem_addId {s : Ids} {x y : String} : y ∈ addId s x ↔ y = x ∨ y ∈ s := by
  unfold addId
  split
  · constructor
    · exact fun h => Or.inr h
    · rintro (rfl | h) <;> assumption
  · simp [or_comm]

theorem addId_subset {s : Ids} {x : String} : s ⊆ addId s x := by
  intro y hy; exact mem_addId.mpr (Or.inr hy)

theorem strTruthy_iff {o : Option String} :
    strTruthy o = true ↔ ∃ s, o = some s ∧ s ≠ "" := by
  cases o with
  | none => simp [strTruthy]
  | some s => simp [strTruthy]

theorem strTruthy_some {s : String} (h : s ≠ "") : strTruthy (some s) = true := by
  simp [strTruthy, h]

theorem intTruthy_some {n : Int} (h : n ≠ 0) : intTruthy (some n) = true := by
  simp [intTruthy, h]

/-! ## C9: the Relationship Classifier -/

/-- **C9.** `calculateRelationship` returns `"grandmother"` for
`(ancestor, female, 2, false)`, `"son"` for `(descendant, male, 1, false)` and
`"half-sister"` for `(sibling, female, 1, true)`; for ancestors and
descendants the label is keyed by generation distance (1 = parent/child,
2 = grand-, 3 = great-), every distance of 4 or more saturates at the
"great-great-" label, and in every branch gender `other` or absent yields the
masculine label. -/
theorem c9_classifier :
    calculateRelationship .ancestor (some "female") 2 false = "grandmother" ∧
    calculateRelationship .descendant (some "male") 1 false = "son" ∧
    calculateRelationship .sibling (some "female") 1 true = "half-sister" ∧
    (∀ g : Option String,
      calculateRelationship .ancestor g 1 false =
        (if g == some "female" then "mother" else "father") ∧
      calculateRelationship .ancestor g 2 false =
        (if g == some "female" then "grandmother" else "grandfather") ∧
      calculateRelationship .ancestor g 3 false =
        (if g == some "female" then "great-grandmother" else "great-grandfather") ∧
      calculateRelationship .descendant g 1 false =
        (if g == some "female" then "daughter" else "son") ∧
      calculateRelationship .descendant g 2 false =
        (if g == some "female" then "granddaughter" else "grandson") ∧
      calculateRelationship .descendant g 3 false =
        (if g == some "female" then "great-granddaughter" else "great-grandson")) ∧
    (∀ (g : Option String) (d : Int) (h : Bool), 4 ≤ d →
      calculateRelationship .ancestor g d h =
        (if g == some "female" then "great-great-grandmother"
         else "great-great-grandfather") ∧
      calculateRelationship .descendant g d h =
        (if g == some "female" then "great-great-granddaughter"
         else "great-great-grandson")) ∧
    (∀ (t : MemberType) (d : Int) (h : Bool),
      calculateRelationship t none d h = calculateRelationship t (some "male") d h ∧
      calculateRelationship t (some "other") d h =
        calculateRelationship t (some "male") d h) := by
  refine ⟨rfl, rfl, rfl, ?_, ?_, ?_⟩
  · intro g
    rcases Bool.dichotomy (g == some "male") with hm | hm <;>
      rcases Bool.dichotomy (g == some "female") with hf | hf
    · simp [calculateRelationship, hm, hf]
    · simp [calculateRelationship, hm, hf]
    · simp [calculateRelationship, hm, hf]
    · have : (some "male" : Option String) = some "female" := by
        rw [← eq_of_beq hm]; exact eq_of_beq hf
      simp at this
  · intro g d h hd
    have h1 : (d == (1 : Int)) = false := by
      apply beq_eq_false_iff_ne.mpr; omega
    have h2 : (d == (2 : Int)) = false := by
      apply beq_eq_false_iff_ne.mpr; omega
    have h3 : (d == (3 : Int)) = false := by
      apply beq_eq_false_iff_ne.mpr; omega
    rcases Bool.dichotomy (g == some "male") with hm | hm <;>
      rcases Bool.dichotomy (g == some "female") with hf | hf
    · constructor <;> simp [calculateRelationship, h1, h2, h3, hm, hf]
    · constructor <;> simp [calculateRelationship, h1, h2, h3, hm, hf]
    · constructor <;> simp [calculateRelationship, h1, h2, h3, hm, hf]
    · have : (some "male" : Option String) = some "female" := by
        rw [← eq_of_beq hm]; exact eq_of_beq hf
      simp at this
  · intro t d h
    cases t <;> simp [calculateRelationship]

/-- Witness for C9 at concrete distance-seven calls discharging `4 ≤ 7`:
the saturated labels across the gender branches, masculine default for an
absent gender. -/
theorem c9_classifier_witness :
    (4 : Int) ≤ 7 ∧
    calculateRelationship .ancestor (some "female") 7 false = "great-great-grandmother" ∧
    calculateRelationship .ancestor (some "male") 7 false = "great-great-grandfather" ∧
    calculateRelationship .descendant none 7 false = "great-great-grandson" :=
  ⟨by decide,
   ((c9_classifier.2.2.2.2.1 (some "female") 7 false (by decide)).1).trans (by decide),
   ((c9_classifier.2.2.2.2.1 (some "male") 7 false (by decide)).1).trans (by decide),
   ((c9_classifier.2.2.2.2.1 none 7 false (by decide)).2).trans (by decide)⟩

/-! ## C5: sibling partition -/

/-- Generic shape of the accumulating loop in `getSiblingsOf`: skip on `c1`,
push to the first list on `c2`, else push to the second on `c3`. -/
theorem foldl_sibPartition (c1 c2 c3 : Member → Bool) (l : List Member)
    (a b : List Member) :
    l.foldl (fun (acc : List Member × List Member) m =>
        if c1 m then acc
        else if c2 m then (acc.1 ++ [m], acc.2)
        else if c3 m then (acc.1, acc.2 ++ [m])
        else acc) (a, b) =
    (a ++ l.filter (fun m => !c1 m && c2 m),
     b ++ l.filter (fun m => !c1 m && !c2 m && c3 m)) := by
  induction l generalizing a b with
  | nil => simp
  | cons m l ih =>
    simp only [List.foldl_cons, List.filter_cons]
    cases h1 : c1 m <;> cases h2 : c2 m <;> cases h3 : c3 m <;>
      simp [h1, h2, h3, ih]

/-- `getSiblingsOf` filters the member list by the full- and half-sibling
tests, skipping the reference member itself. -/
theorem getSiblingsOf_eq (memberId : String) (members : List Member) (member : Member)
    (hfind : members.find? (fun m => m.id == memberId) = some member) :
    getSiblingsOf memberId members =
      (members.filter (fun m => !(m.id == memberId) && sibFull member m),
       members.filter (fun m => !(m.id == memberId) && !(sibFull member m) &&
        sibHalf member m)) := by
  unfold getSiblingsOf
  rw [hfind]
  exact foldl_sibPartition (fun m => m.id == memberId) (fun m => sibFull member m)
    (fun m => sibHalf member m) members [] []

theorem sibShares1_iff {member m : Member} {p : String} (hp : member.parentId = some p)
    (hpne : p ≠ "") : sibShares1 member m = true ↔ inSlots p m := by
  simp [sibShares1, hp, strTruthy, hpne, inSlots]

theorem sibShares2_iff {member m : Member} {q : String}
    (hq : member.secondParentId = some q) (hqne : q ≠ "") :
    sibShares2 member m = true ↔ inSlots q m := by
  simp [sibShares2, hq, strTruthy, hqne, inSlots]

/-- **C5.** For a reference member with both parent slots set, `getSiblingsOf`
puts every other member sharing both parent slot values in the full-sibling
list, every other member sharing exactly one in the half-sibling list, a
member sharing neither in neither list, and the two lists are disjoint. -/
theorem c5_sibling_partition (memberId : String) (members : List Member) (member : Member)
    (hfind : members.find? (fun m => m.id == memberId) = some member)
    (p q : String) (hp : member.parentId = some p) (hq : member.secondParentId = some q)
    (hpne : p ≠ "") (hqne : q ≠ "") :
    (∀ m' ∈ members, m'.id ≠ memberId →
      ((inSlots p m' ∧ inSlots q m') ↔ m' ∈ (getSiblingsOf memberId members).1) ∧
      (((inSlots p m' ∨ inSlots q m') ∧ ¬(inSlots p m' ∧ inSlots q m')) ↔
        m' ∈ (getSiblingsOf memberId members).2)) ∧
    (∀ m', m' ∈ (getSiblingsOf memberId members).1 →
      m' ∉ (getSiblingsOf memberId members).2) := by
  rw [getSiblingsOf_eq memberId members member hfind]
  have hfull : ∀ m', sibFull member m' = true ↔ (inSlots p m' ∧ inSlots q m') := by
    intro m'
    simp only [sibFull, Bool.and_eq_true, sibShares1_iff hp hpne, sibShares2_iff hq hqne,
      hp, hq, strTruthy_some hpne, strTruthy_some hqne, and_true]
  have hhalf : ∀ m', sibHalf member m' = true ↔ (inSlots p m' ∨ inSlots q m') := by
    intro m'
    simp only [sibHalf, Bool.or_eq_true, sibShares1_iff hp hpne, sibShares2_iff hq hqne]
  refine ⟨fun m' hm' hne => ⟨?_, ?_⟩, fun m' h1 h2 => ?_⟩
  · rw [List.mem_filter]
    simp only [Bool.and_eq_true, Bool.not_eq_true', beq_eq_false_iff_ne]
    rw [hfull]
    tauto
  · rw [List.mem_filter]
    simp only [Bool.and_eq_true, Bool.not_eq_true', beq_eq_false_iff_ne]
    rw [hhalf]
    have := hfull m'
    constructor
    · rintro ⟨hor, hnb⟩
      refine ⟨hm', ⟨hne, ?_⟩, hor ⟩
      cases hb : sibFull member m'
      · rfl
      · exact absurd (this.mp hb) hnb
    · rintro ⟨_, ⟨hne', hnf⟩, hor⟩
      refine ⟨hor, fun hb => ?_⟩
      rw [← this] at hb
      rw [hb] at hnf
      simp at hnf
  · rw [List.mem_filter] at h1 h2
    simp only [Bool.and_eq_true, Bool.not_eq_true'] at h1 h2
    rw [h1.2.2] at h2
    exact absurd h2.2.1.2 (by simp)

/-- Witness for C5 on a concrete family: `f` shares both parents with `m`,
`h` and `h2` share exactly one, `n` shares none. -/
theorem c5_sibling_partition_witness :
    ((getSiblingsOf "m" c5WitnessMembers).1.map (·.id) = ["f"] ∧
     (getSiblingsOf "m" c5WitnessMembers).2.map (·.id) = ["h", "h2"]) ∧
    ((inSlots "p" (mkMember "f" (some "p") (some "q")) ∧
      inSlots "q" (mkMember "f" (some "p") (some "q"))) ↔
      mkMember "f" (some "p") (some "q") ∈ (getSiblingsOf "m" c5WitnessMembers).1) := by
  refine ⟨by decide, ?_⟩
  exact ((c5_sibling_partition "m" c5WitnessMembers
      (mkMember "m" (some "p") (some "q")) (by decide) "p" "q" (by decide) (by decide)
      (by decide) (by decide)).1
    (mkMember "f" (some "p") (some "q")) (by decide) (by decide)).1

/-! ## C7: symmetry of spouses-by-shared-children -/

/-- The effect of one shared-children loop iteration on membership. -/
theorem mem_sharedChildStep {memberId x : String} {acc : Ids} {m : Member} :
    x ∈ sharedChildStep memberId acc m ↔
    x ∈ acc ∨
      (m.parentId = some memberId ∧ m.secondParentId = some x ∧ x ≠ "") ∨
      (m.secondParentId = some memberId ∧ m.parentId = some x ∧ x ≠ "") := by
  unfold sharedChildStep
  rcases hsp : m.secondParentId with _ | s <;> rcases hpp : m.parentId with _ | p
  · simp
  · simp only []
    split <;> rename_i hcond <;> simp_all [strTruthy, mem_addId] <;> aesop
  · simp only []
    split <;> rename_i hcond <;> simp_all [strTruthy, mem_addId] <;> aesop
  · simp only []
    split <;> rename_i hc1 <;> split <;> rename_i hc2 <;>
      simp_all [strTruthy, mem_addId] <;> aesop

/-- Membership in the id accumulation loop of `getSpousesOf`. -/
theorem mem_foldl_sharedChildStep (memberId x : String) (l : List Member) (init : Ids) :
    x ∈ l.foldl (sharedChildStep memberId) init ↔
    x ∈ init ∨ ∃ c ∈ l,
      (c.parentId = some memberId ∧ c.secondParentId = some x ∧ x ≠ "") ∨
      (c.secondParentId = some memberId ∧ c.parentId = some x ∧ x ≠ "") := by
  induction l generalizing init with
  | nil => simp
  | cons m l ih =>
    rw [List.foldl_cons, ih, mem_sharedChildStep]
    simp only [List.exists_mem_cons_iff]
    aesop

/-- Membership in `sharedChildSpouseIds`. -/
theorem mem_sharedChildSpouseIds {memberId x : String} {members : List Member} :
    x ∈ sharedChildSpouseIds memberId members ↔
    ∃ c ∈ members,
      (c.parentId = some memberId ∧ c.secondParentId = some x ∧ x ≠ "") ∨
      (c.secondParentId = some memberId ∧ c.parentId = some x ∧ x ≠ "") := by
  unfold sharedChildSpouseIds
  rw [mem_foldl_sharedChildStep]
  simp

/-- Membership (by id) in the resolved `getSpousesOf` result. -/
theorem mem_getSpousesOf_iff {memberId x : String} {members : List Member} :
    (∃ m ∈ getSpousesOf memberId members, m.id = x) ↔
    (∃ m ∈ members, m.id = x) ∧ x ∈ sharedChildSpouseIds memberId members := by
  unfold getSpousesOf
  constructor
  · rintro ⟨m, hm, rfl⟩
    rw [List.mem_filterMap] at hm
    obtain ⟨i, hi, hfind⟩ := hm
    have hmem := List.mem_of_find?_eq_some hfind
    have hpred := List.find?_some hfind
    rw [beq_iff_eq] at hpred
    subst hpred
    exact ⟨⟨m, hmem, rfl⟩, hi⟩
  · rintro ⟨⟨m, hm, rfl⟩, hx⟩
    have : (members.find? (fun m' => m'.id == m.id)).isSome := by
      rw [List.find?_isSome]
      exact ⟨m, hm, by simp⟩
    obtain ⟨m', hm'⟩ := Option.isSome_iff_exists.mp this
    refine ⟨m', ?_, ?_⟩
    · rw [List.mem_filterMap]
      exact ⟨m.id, hx, hm'⟩
    · have := List.find?_some hm'
      rwa [beq_iff_eq] at this

/-- **C7.** If `b` is a spouse of `a` by virtue of a shared child (some member
carries `a` in one parent slot and `b` in the other, both slots truthy), and
`a` is the id of a member of the collection, then `a` is in
`getSpousesOf b members`: the spouses-by-shared-children relation is
symmetric. -/
theorem c7_sharedChild_symm (a b : String) (members : List Member) (c ma : Member)
    (hc : c ∈ members)
    (hslots : (c.parentId = some a ∧ c.secondParentId = some b) ∨
      (c.parentId = some b ∧ c.secondParentId = some a))
    (hane : a ≠ "") (hbne : b ≠ "")
    (hma : ma ∈ members) (hmaid : ma.id = a) :
    (∃ m ∈ getSpousesOf a members, m.id = b) →
    ∃ m ∈ getSpousesOf b members, m.id = a := by
  intro _
  rw [mem_getSpousesOf_iff]
  refine ⟨⟨ma, hma, hmaid⟩, ?_⟩
  rw [mem_sharedChildSpouseIds]
  rcases hslots with ⟨h1, h2⟩ | ⟨h1, h2⟩
  · exact ⟨c, hc, Or.inr ⟨h2, h1, hane⟩⟩
  · exact ⟨c, hc, Or.inl ⟨h1, h2, hane⟩⟩

/-- Witness for C7: `a` and `b` share the child `c`; `b` is a spouse of `a`
and symmetrically `a` is a spouse of `b`. -/
theorem c7_sharedChild_symm_witness :
    ∃ m ∈ getSpousesOf "b" c7WitnessMembers, m.id = "a" :=
  c7_sharedChild_symm "a" "b" c7WitnessMembers
    (mkMember "c" (some "a") (some "b")) (mkMember "a") (by decide)
    (Or.inl ⟨rfl, rfl⟩) (by decide) (by decide) (by decide) rfl
    ⟨mkMember "b", by decide, rfl⟩

/-! ## C3: ancestor-age validation -/

/-- Behaviour of `validateAncestorAge` on resolved inputs: it blocks exactly
when the age difference is below `MIN_PARENT_AGE * generationDiff`, and the
error and the `isValid` flag always agree. -/
theorem validateAncestorAge_spec (y : Int) (rid : String) (members : List Member)
    (g : Int) (descendant : Member) (hy : y ≠ 0) (hrid : rid ≠ "")
    (hfind : members.find? (fun m => m.id == rid) = some descendant) (hg : 1 ≤ g) :
    ((validateAncestorAge (some y) (some rid) members g).error ≠ none ↔
      descendant.birthYear - y < 12 * g) ∧
    ((validateAncestorAge (some y) (some rid) members g).isValid = false ↔
      descendant.birthYear - y < 12 * g) := by
  unfold validateAncestorAge
  rw [intTruthy_some hy, strTruthy_some hrid]
  simp only [Bool.not_true, Bool.or_self, Bool.false_eq_true, if_false, Option.getD_some,
    hfind]
  have h12 : MIN_PARENT_AGE * g = 12 * g := by unfold MIN_PARENT_AGE; ring
  split <;> rename_i hlt
  · constructor <;> constructor <;> intro h <;> first | omega | simp
  · split <;> rename_i hlt2
    · rw [h12] at hlt2
      constructor <;> constructor <;> intro h <;> first | omega | simp
    · rw [h12] at hlt2
      constructor <;> constructor <;> intro h <;> first | omega | simp_all

/-- **C3.** With a proposed birth year, member type `ancestor` and a known
descendant id, the validator blocks iff the descendant's stored birth year
minus the proposed ancestor birth year is below `12 * generationDiff`
(`validateAncestorAge`); a negative difference is always an error; and the
full validation pipeline (which invokes `validateAncestorAge` at generation
distance 1) reports a blocking error iff the difference is below 12. -/
theorem c3_ancestor_age (members : List Member) (y : Int) (rid : String) (g gen : Int)
    (descendant : Member) (hy : y ≠ 0) (hrid : rid ≠ "")
    (hfind : members.find? (fun m => m.id == rid) = some descendant) (hg : 1 ≤ g) :
    ((validateAncestorAge (some y) (some rid) members g).error ≠ none ↔
      descendant.birthYear - y < 12 * g) ∧
    (descendant.birthYear - y < 0 →
      (validateAncestorAge (some y) (some rid) members g).error ≠ none) ∧
    ((runAllValidations none none none gen members false (some y)
        (some MemberType.ancestor) (some rid)).1 ≠ [] ↔
      descendant.birthYear - y < 12) := by
  obtain ⟨herr, hval⟩ := validateAncestorAge_spec y rid members g descendant hy hrid hfind hg
  refine ⟨herr, fun hneg => herr.mpr (by omega), ?_⟩
  obtain ⟨herr1, hval1⟩ := validateAncestorAge_spec y rid members 1 descendant hy hrid hfind
    (by omega)
  unfold runAllValidations
  simp only [validateNotSelfParent, validateDifferentParents, validateNoCircularRelationship,
    validateGenerationConsistency, validateParentsSameGeneration,
    validateHalfSiblingRelationship, checkNewParentalRelationship, pushResult,
    strTruthy, intTruthy_some hy, strTruthy_some hrid]
  simp only [Bool.not_false, Bool.and_true, Bool.true_and, Bool.and_false, Bool.false_and,
    Bool.or_false, Bool.false_or]
  norm_num
  by_cases hd : descendant.birthYear - y < 12
  · have he : (validateAncestorAge (some y) (some rid) members 1).error ≠ none :=
      herr1.mpr (by omega)
    have hv : (validateAncestorAge (some y) (some rid) members 1).isValid = false :=
      hval1.mpr (by omega)
    obtain ⟨e, he'⟩ := Option.ne_none_iff_exists'.mp he
    simp [pushResult, hv, he', hd, hrid]
  · have he : (validateAncestorAge (some y) (some rid) members 1).error = none := by
      by_contra hne
      exact hd (by have := herr1.mp hne; omega)
    simp [pushResult, he, hd, hrid]

/-- Witness for C3: descendant born 2000, proposed ancestor born 1990 at
distance 1 (difference 10 < 12) is blocked by the pipeline. -/
theorem c3_ancestor_age_witness :
    (runAllValidations none none none 0 c3WitnessMembers false (some 1990)
      (some MemberType.ancestor) (some "d")).1 ≠ [] :=
  (c3_ancestor_age c3WitnessMembers 1990 "d" 1 0 (mkMember "d" none none none 2000)
    (by decide) (by decide) (by decide) (by decide)).2.2.mpr (by decide)

/-! ## C4: parent/child birth-year validation -/

/-- `birthYearErrorsFor` is non-empty when the resolved parent violates the
minimum parenting age. -/
theorem birthYearErrorsFor_ne_nil {y : Int} {pid : String} {members : List Member}
    {parent : Member} (hfind : members.find? (fun m => m.id == pid) = some parent)
    (hviol : y - parent.birthYear < 12) :
    birthYearErrorsFor y pid members ≠ [] := by
  unfold birthYearErrorsFor
  rw [hfind]
  split <;> rename_i hm
  · simp at hm
  · injection hm with hm'
    subst hm'
    dsimp only
    split <;> rename_i h1
    · simp
    · split <;> rename_i h2
      · simp
      · have h12 : MIN_PARENT_AGE = 12 := rfl
        rw [h12] at h2
        omega

/-- `validateBirthYearConsistency` blocks (with an error message) whenever one
of the resolved proposed parents violates the minimum parenting age. -/
theorem validateBirthYearConsistency_invalid {y : Int}
    {parentId secondParentId : Option String} {members : List Member}
    (hy : y ≠ 0) {pid : String} {parent : Member}
    (hpid : parentId = some pid ∨ secondParentId = some pid) (hpidne : pid ≠ "")
    (hfind : members.find? (fun m => m.id == pid) = some parent)
    (hviol : y - parent.birthYear < 12) :
    (validateBirthYearConsistency (some y) parentId secondParentId members).isValid = false ∧
    ∃ e, (validateBirthYearConsistency (some y) parentId secondParentId members).error =
      some e := by
  unfold validateBirthYearConsistency
  rw [intTruthy_some hy]
  simp only [Bool.not_true, Bool.false_eq_true, if_false, Option.getD_some, List.nil_append]
  have hne : (match parentId with
      | some pid' => if strTruthy (some pid') then birthYearErrorsFor y pid' members else []
      | none => []) ++
      (match secondParentId with
      | some pid' => if strTruthy (some pid') then birthYearErrorsFor y pid' members else []
      | none => []) ≠ [] := by
    rcases hpid with h | h <;> rw [h] <;>
      simp only [strTruthy_some hpidne, if_true] <;>
      intro hcontra
    · exact birthYearErrorsFor_ne_nil hfind hviol (by
        rcases List.append_eq_nil.mp hcontra with ⟨h1, _⟩; exact h1)
    · exact birthYearErrorsFor_ne_nil hfind hviol (by
        rcases List.append_eq_nil.mp hcontra with ⟨_, h2⟩; exact h2)
  split <;> rename_i heq
  · exact absurd heq hne
  · exact ⟨rfl, _, rfl⟩

/-- A pushed blocking error keeps the error list non-empty. -/
theorem pushResult_error_ne_nil (acc : List String × List String) (r : ValidationResult)
    (tw : Bool) (hr : r.isValid = false) (e : String) (he : r.error = some e) :
    (pushResult acc r true tw).1 ≠ [] := by
  unfold pushResult
  rw [hr, he]
  cases tw <;> cases hw : r.warning <;> simp

/-- **C4.** When the validator runs with a proposed birth year and the edit
context is a descendant or sibling addition, or no member-type hint is given
but some parent id is set, any resolved proposed parent whose birth year is
later than, or less than 12 years before, the child's proposed birth year
produces a blocking error; in particular the 1990-parent/1999-child scenario
produces exactly the error naming the 12-year minimum. -/
theorem c4_birth_year :
    (∀ (members : List Member) (memberId parentId secondParentId : Option String)
      (gen : Int) (isHalf : Bool) (y : Int) (relatedToId : Option String)
      (memberType : Option MemberType) (pid : String) (parent : Member),
      y ≠ 0 →
      (memberType = some MemberType.descendant ∨ memberType = some MemberType.sibling ∨
        (memberType = none ∧ (strTruthy parentId ∨ strTruthy secondParentId))) →
      (parentId = some pid ∨ secondParentId = some pid) → pid ≠ "" →
      members.find? (fun m => m.id == pid) = some parent →
      y - parent.birthYear < 12 →
      (runAllValidations memberId parentId secondParentId gen members isHalf (some y)
        memberType relatedToId).1 ≠ []) ∧
    (runAllValidations none (some "p") none 1 c4WitnessMembers false (some 1999)
        (some MemberType.descendant) none).1 =
      ["p was born in 1990. They would have been only 9 years old when the child was born (1999). Minimum parent age is 12."] := by
  constructor
  · intro members memberId parentId secondParentId gen isHalf y relatedToId memberType
      pid parent hy hctx hpid hpidne hfind hviol
    have hguard8 : (intTruthy (some y) &&
        (memberType == some MemberType.descendant || memberType == some MemberType.sibling ||
          (memberType == none && (strTruthy parentId || strTruthy secondParentId)))) = true := by
      rw [intTruthy_some hy]
      rcases hctx with h | h | ⟨h, hp⟩ <;> subst h <;> simp
      rcases hp with hp | hp <;> simp [hp]
    have hguard9 : (intTruthy (some y) && memberType == some MemberType.ancestor &&
        strTruthy relatedToId) = false := by
      rcases hctx with h | h | ⟨h, _⟩ <;> subst h <;> simp
    obtain ⟨hv, e, he⟩ := validateBirthYearConsistency_invalid
      hy hpid hpidne hfind hviol
    unfold runAllValidations
    rw [hguard8, hguard9]
    simp only [if_true, if_false, Bool.false_eq_true]
    exact pushResult_error_ne_nil _ _ _ hv e he
  · decide

/-- Witness for C4: parent born 1990, child born 1999 (9-year gap) blocks. -/
theorem c4_birth_year_witness :
    (runAllValidations none (some "p") none 1 c4WitnessMembers false (some 1999)
      (some MemberType.descendant) none).1 ≠ [] :=
  c4_birth_year.1 c4WitnessMembers none (some "p") none 1 false 1999 none
    (some MemberType.descendant) "p" (mkMember "p" none none none 1990)
    (by decide) (Or.inl rfl) (Or.inl rfl) (by decide) (by decide) (by decide)

/-! ## C6: `getAllAncestors` only climbs one level (code bug) -/

/-- A call on an already-visited id returns the visited set unchanged, at any
fuel. -/
theorem getAllAncestorsF_visited (fuel : Nat) (p : String) (members : List Member)
    (v : Ids) (h : p ∈ v) : getAllAncestorsF fuel p members v = v := by
  cases fuel <;> simp [getAllAncestorsF, h]

/-- `getAllAncestors` never climbs past the direct parents: each recursive
call is on an id the caller has just added to `visited`, so the callee's
first guard fires immediately.  This characterisation holds for every input. -/
theorem getAllAncestors_eq_direct (mid : String) (members : List Member) (v : Ids) :
    getAllAncestors mid members v =
      if mid ∈ v then v
      else
        match members.find? (fun m => m.id == mid) with
        | none => v
        | some member =>
          let v1 := match member.parentId with
            | some p => if p ≠ "" ∧ p ∉ v then addId v p else v
            | none => v
          match member.secondParentId with
          | some p => if p ≠ "" ∧ p ∉ v1 then addId v1 p else v1
          | none => v1 := by
  have hstep : ∀ (a : String) (w : Ids),
      (if strTruthy (some a) && !decide (a ∈ w) then
        getAllAncestorsF members.length a members (addId w a)
      else w) = (if a ≠ "" ∧ a ∉ w then addId w a else w) := by
    intro a w
    by_cases hc : a ≠ "" ∧ a ∉ w
    · rw [if_pos hc]
      have hbc : (strTruthy (some a) && !decide (a ∈ w)) = true := by
        simp [strTruthy, hc.1, hc.2]
      rw [hbc, if_pos rfl]
      exact getAllAncestorsF_visited _ _ _ _ (mem_addId.mpr (Or.inl rfl))
    · rw [if_neg hc]
      have hbc : (strTruthy (some a) && !decide (a ∈ w)) = false := by
        push_neg at hc
        rcases eq_or_ne a "" with h | h
        · simp [strTruthy, h]
        · simp [strTruthy, h, hc h]
      rw [hbc]
      simp
  unfold getAllAncestors getAllAncestorsF
  by_cases hv : mid ∈ v
  · simp [hv]
  · simp only [hv, if_false, if_neg hv]
    cases hfind : members.find? (fun m => m.id == mid) with
    | none => rfl
    | some member =>
      dsimp only
      rcases hp1 : member.parentId with _ | p <;>
        rcases hp2 : member.secondParentId with _ | q <;> dsimp only
      · exact hstep q v
      · exact hstep p v
      · rw [hstep p v, hstep q _]

/-- **C6 (code bug).** On the parent chain `a ← b ← c`, `getAllAncestors "c"`
returns only the direct parent `b` and misses the grandparent `a`, although
`a` is reachable by following `parentId` twice.  The visited-set guard is
checked against an id the caller has just inserted, so every recursive call
returns immediately — the function computes direct parents, not the
transitive ancestor set promised by its own doc comment. -/
theorem c6_getAllAncestors_bug :
    getAllAncestors "c" c6BugMembers [] = ["b"] ∧
    (∃ mc ∈ c6BugMembers, mc.id = "c" ∧ mc.parentId = some "b") ∧
    (∃ mb ∈ c6BugMembers, mb.id = "b" ∧ mb.parentId = some "a") ∧
    "a" ∉ getAllAncestors "c" c6BugMembers [] := by decide

/-! ## C2: the two spouse derivations differ -/

/-- **C2 (counterexample).** `a.spouseId = "b"` with no shared children:
the spec union contains `b`, and `b` is a member, yet the validator's
`getSpousesOf "a"` is empty — it implements only spouses-by-shared-children
and ignores explicit `spouseId` links in both directions. -/
theorem c2_spouses_counterexample :
    specSpouseUnion "a" "b" c2CounterMembers ∧
    (∃ m ∈ c2CounterMembers, m.id = "b") ∧
    getSpousesOf "a" c2CounterMembers = [] := by decide

/-- The effect of one reverse-`spouseId` loop iteration on membership. -/
theorem mem_spouseBackStep {memberId x : String} {acc : Ids} {m : Member} :
    x ∈ spouseBackStep memberId acc m ↔
    x ∈ acc ∨ (m.spouseId = some memberId ∧ m.id = x) := by
  unfold spouseBackStep
  split <;> rename_i hc <;> simp_all [mem_addId] <;> aesop

/-- Membership in the reverse-`spouseId` loop of `getSpouses`. -/
theorem mem_foldl_spouseBackStep (memberId x : String) (l : List Member) (init : Ids) :
    x ∈ l.foldl (spouseBackStep memberId) init ↔
    x ∈ init ∨ ∃ m ∈ l, m.spouseId = some memberId ∧ m.id = x := by
  induction l generalizing init with
  | nil => simp
  | cons m l ih =>
    rw [List.foldl_cons, ih, mem_spouseBackStep]
    simp only [List.exists_mem_cons_iff]
    tauto

/-- `find?` by id is determined by membership once the id list has no
duplicates. -/
theorem find?_id_of_nodup {members : List Member}
    (hnd : (members.map Member.id).Nodup) {m : Member} (hm : m ∈ members) :
    members.find? (fun x => x.id == m.id) = some m := by
  induction members with
  | nil => cases hm
  | cons h t ih =>
    rw [List.map_cons, List.nodup_cons] at hnd
    rcases List.mem_cons.mp hm with rfl | hmt
    · simp [List.find?_cons]
    · have hne : (h.id == m.id) = false := by
        rw [beq_eq_false_iff_ne]
        intro heq
        exact hnd.1 (heq ▸ List.mem_map_of_mem Member.id hmt)
      simp only [List.find?_cons, hne]
      exact ih hnd.2 hmt

/-- Membership in the full id set accumulated by `getSpouses`. -/
theorem mem_getSpouses_ids (memberId x : String) (members : List Member) :
    (∃ m ∈ getSpouses memberId members, m.id = x) ↔
    (∃ m ∈ members, m.id = x) ∧
      ((∃ member, members.find? (fun m => m.id == memberId) = some member ∧
          member.spouseId = some x ∧ x ≠ "") ∨
       (∃ m ∈ members, m.spouseId = some memberId ∧ m.id = x) ∨
       (∃ c ∈ members,
          (c.parentId = some memberId ∧ c.secondParentId = some x ∧ x ≠ "") ∨
          (c.secondParentId = some memberId ∧ c.parentId = some x ∧ x ≠ ""))) := by
  unfold getSpouses
  have hmem : ∀ m' : Member, m' ∈ members.filter (fun m => decide (m.id ∈
      members.foldl (sharedChildStep memberId)
        (members.foldl (spouseBackStep memberId)
          (match members.find? (fun m => m.id == memberId) with
            | some member =>
              match member.spouseId with
              | some s => if strTruthy (some s) then addId [] s else []
              | none => []
            | none => [])))) ↔
      m' ∈ members ∧ m'.id ∈ members.foldl (sharedChildStep memberId)
        (members.foldl (spouseBackStep memberId)
          (match members.find? (fun m => m.id == memberId) with
            | some member =>
              match member.spouseId with
              | some s => if strTruthy (some s) then addId [] s else []
              | none => []
            | none => [])) := by
    intro m'
    rw [List.mem_filter, decide_eq_true_iff]
  have hown : ∀ z, z ∈ (match members.find? (fun m => m.id == memberId) with
      | some member =>
        match member.spouseId with
        | some s => if strTruthy (some s) then addId [] s else []
        | none => []
      | none => ([] : Ids)) ↔
      (∃ member, members.find? (fun m => m.id == memberId) = some member ∧
        member.spouseId = some z ∧ z ≠ "") := by
    intro z
    cases hfind : members.find? (fun m => m.id == memberId) with
    | none => simp [hfind]
    | some member =>
      cases hsp : member.spouseId with
      | none => simp [hfind, hsp]
      | some s =>
        simp only [hfind, hsp]
        split <;> rename_i hc <;> simp_all [strTruthy, mem_addId] <;> aesop
  constructor
  · rintro ⟨m', hm', rfl⟩
    rw [hmem] at hm'
    obtain ⟨hmem', hid⟩ := hm'
    rw [mem_foldl_sharedChildStep, mem_foldl_spouseBackStep, hown] at hid
    exact ⟨⟨m', hmem', rfl⟩, or_assoc.mp hid⟩
  · rintro ⟨⟨m', hm', rfl⟩, hcond⟩
    refine ⟨m', ?_, rfl⟩
    rw [hmem]
    refine ⟨hm', ?_⟩
    rw [mem_foldl_sharedChildStep, mem_foldl_spouseBackStep, hown]
    exact or_assoc.mpr hcond

/-- `addId` preserves the no-duplicates invariant. -/
theorem addId_nodup {s : Ids} (h : s.Nodup) (x : String) : (addId s x).Nodup := by
  unfold addId
  split <;> rename_i hx
  · exact h
  · simpa using List.Nodup.append h (by simp) (by simpa using hx)

theorem sharedChildStep_nodup {memberId : String} {acc : Ids} (h : acc.Nodup)
    (m : Member) : (sharedChildStep memberId acc m).Nodup := by
  unfold sharedChildStep
  rcases m.secondParentId with _ | s <;> rcases m.parentId with _ | p <;> dsimp only <;>
    repeat' first
    | split
    | exact addId_nodup (addId_nodup h _) _
    | exact addId_nodup h _
    | exact h

theorem foldl_sharedChildStep_nodup {memberId : String} (l : List Member) {init : Ids}
    (h : init.Nodup) : (l.foldl (sharedChildStep memberId) init).Nodup := by
  induction l generalizing init with
  | nil => exact h
  | cons m l ih => exact ih (sharedChildStep_nodup h m)

/-- The ids of the resolved `getSpousesOf` list are exactly the collected ids
that resolve, so they inherit the no-duplicates invariant. -/
theorem filterMap_find?_nodup (members : List Member) (l : Ids) (h : l.Nodup) :
    ((l.filterMap fun i => members.find? fun m => m.id == i).map Member.id).Nodup := by
  induction l with
  | nil => simp
  | cons i t ih =>
    rw [List.nodup_cons] at h
    rw [List.filterMap_cons]
    cases hfind : members.find? (fun m => m.id == i) with
    | none => exact ih h.2
    | some m' =>
      have hid : m'.id = i := by
        have := List.find?_some hfind
        rwa [beq_iff_eq] at this
      rw [List.map_cons, List.nodup_cons]
      refine ⟨?_, ih h.2⟩
      intro hmem
      rw [List.mem_map] at hmem
      obtain ⟨m'', hm'', hid''⟩ := hmem
      rw [List.mem_filterMap] at hm''
      obtain ⟨j, hj, hfind'⟩ := hm''
      have hj' : m''.id = j := by
        have := List.find?_some hfind'
        rwa [beq_iff_eq] at this
      have hij : i = j := by rw [← hid, ← hid'', hj']
      exact h.1 (hij ▸ hj)

/-- **C2 (amended).** The tree builder's `getSpouses` returns exactly the
spec's union — explicit `spouseId` links in both directions plus
spouses-by-shared-children — for truthy ids over a collection with unique
member ids, de-duplicated by id; the validator's `getSpousesOf` returns only
the spouses-by-shared-children component and ignores explicit `spouseId`
links. -/
theorem c2_spouses_amended (memberId x : String) (members : List Member)
    (hnd : (members.map Member.id).Nodup) (hx : x ≠ "") :
    ((∃ m ∈ getSpouses memberId members, m.id = x) ↔
      (∃ m ∈ members, m.id = x) ∧ specSpouseUnion memberId x members) ∧
    ((∃ m ∈ getSpousesOf memberId members, m.id = x) ↔
      (∃ m ∈ members, m.id = x) ∧ specSharedChildSpouse memberId x members) ∧
    ((getSpouses memberId members).map Member.id).Nodup ∧
    ((getSpousesOf memberId members).map Member.id).Nodup := by
  refine ⟨?_, ?_, ?_, ?_⟩
  · rw [mem_getSpouses_ids]
    unfold specSpouseUnion specSharedChildSpouse
    have hiff : (∃ member, members.find? (fun m => m.id == memberId) = some member ∧
        member.spouseId = some x ∧ x ≠ "") ↔
        (∃ m ∈ members, m.id = memberId ∧ m.spouseId = some x) := by
      constructor
      · rintro ⟨member, hfind, hsp, _⟩
        have hid : member.id = memberId := by
          have := List.find?_some hfind
          rwa [beq_iff_eq] at this
        exact ⟨member, List.mem_of_find?_eq_some hfind, hid, hsp⟩
      · rintro ⟨m, hm, hid, hsp⟩
        refine ⟨m, ?_, hsp, hx⟩
        have := find?_id_of_nodup hnd hm
        rwa [hid] at this
    rw [hiff]
    constructor
    · rintro ⟨hex, hcond⟩
      refine ⟨hex, ?_⟩
      rcases hcond with h | h | ⟨c, hc, ⟨h1, h2, _⟩ | ⟨h1, h2, _⟩⟩
      · exact Or.inl h
      · exact Or.inr (Or.inl h)
      · exact Or.inr (Or.inr ⟨c, hc, Or.inl ⟨h1, h2⟩⟩)
      · exact Or.inr (Or.inr ⟨c, hc, Or.inr ⟨h1, h2⟩⟩)
    · rintro ⟨hex, hcond⟩
      refine ⟨hex, ?_⟩
      rcases hcond with h | h | ⟨c, hc, ⟨h1, h2⟩ | ⟨h1, h2⟩⟩
      · exact Or.inl h
      · exact Or.inr (Or.inl h)
      · exact Or.inr (Or.inr ⟨c, hc, Or.inl ⟨h1, h2, hx⟩⟩)
      · exact Or.inr (Or.inr ⟨c, hc, Or.inr ⟨h1, h2, hx⟩⟩)
  · rw [mem_getSpousesOf_iff, mem_sharedChildSpouseIds]
    unfold specSharedChildSpouse
    constructor
    · rintro ⟨hex, c, hc, ⟨h1, h2, _⟩ | ⟨h1, h2, _⟩⟩
      · exact ⟨hex, c, hc, Or.inl ⟨h1, h2⟩⟩
      · exact ⟨hex, c, hc, Or.inr ⟨h1, h2⟩⟩
    · rintro ⟨hex, c, hc, ⟨h1, h2⟩ | ⟨h1, h2⟩⟩
      · exact ⟨hex, c, hc, Or.inl ⟨h1, h2, hx⟩⟩
      · exact ⟨hex, c, hc, Or.inr ⟨h1, h2, hx⟩⟩
  · unfold getSpouses
    have hsub : (members.filter fun m => decide (m.id ∈
        members.foldl (sharedChildStep memberId)
          (members.foldl (spouseBackStep memberId)
            (match members.find? (fun m => m.id == memberId) with
              | some member =>
                match member.spouseId with
                | some s => if strTruthy (some s) then addId [] s else []
                | none => []
              | none => [])))).map Member.id |>.Sublist (members.map Member.id) :=
      List.Sublist.map Member.id (List.filter_sublist members)
    exact List.Nodup.sublist hsub hnd
  · unfold getSpousesOf
    exact filterMap_find?_nodup members _
      (foldl_sharedChildStep_nodup members List.nodup_nil)

/-- Witness for C2 (amended): on the counterexample collection, the tree
builder's `getSpouses` does return the explicitly linked spouse `b`, while the
validator's `getSpousesOf` does not (no shared child exists). -/
theorem c2_spouses_amended_witness :
    (∃ m ∈ getSpouses "a" c2CounterMembers, m.id = "b") ∧
    ¬(∃ m ∈ getSpousesOf "a" c2CounterMembers, m.id = "b") := by
  constructor
  · exact (c2_spouses_amended "a" "b" c2CounterMembers (by decide) (by decide)).1.mpr
      (by decide)
  · intro h
    have := ((c2_spouses_amended "a" "b" c2CounterMembers (by decide)
      (by decide)).2.1.mp h).2
    exact absurd this (by decide)

/-! ## Tree builder infrastructure: monotonicity and fuel sufficiency -/

theorem toFinset_addId (s : Ids) (x : String) :
    (addId s x).toFinset = insert x s.toFinset := by
  ext y
  simp [mem_addId]

theorem unprocessedCount_le_of_subset (members : List Member) {p q : Ids}
    (h : p ⊆ q) : unprocessedCount members q ≤ unprocessedCount members p := by
  unfold unprocessedCount
  apply Finset.card_le_card
  apply Finset.sdiff_subset_sdiff (le_refl _)
  intro x hx
  exact List.mem_toFinset.mpr (h (List.mem_toFinset.mp hx))

theorem unprocessedCount_addId_lt (members : List Member) {p : Ids} {x : String}
    (hx : x ∈ members.map Member.id) (hxp : x ∉ p) :
    unprocessedCount members (addId p x) < unprocessedCount members p := by
  unfold unprocessedCount
  rw [toFinset_addId]
  have hmem : x ∈ (members.map Member.id).toFinset \ p.toFinset :=
    Finset.mem_sdiff.mpr ⟨List.mem_toFinset.mpr hx, fun hc => hxp (List.mem_toFinset.mp hc)⟩
  have heq : (members.map Member.id).toFinset \ insert x p.toFinset =
      ((members.map Member.id).toFinset \ p.toFinset).erase x := by
    ext y
    simp only [Finset.mem_sdiff, Finset.mem_insert, Finset.mem_erase]
    tauto
  rw [heq]
  exact Finset.card_erase_lt_of_mem hmem

theorem unprocessedCount_le_length (members : List Member) (p : Ids) :
    unprocessedCount members p ≤ members.length := by
  unfold unprocessedCount
  calc ((members.map Member.id).toFinset \ p.toFinset).card
      ≤ (members.map Member.id).toFinset.card :=
        Finset.card_le_card (Finset.sdiff_subset)
    _ ≤ (members.map Member.id).length := List.toFinset_card_le _
    _ = members.length := List.length_map _ _

theorem markSpouses_subset (sp members : List Member) : ∀ p : Ids,
    p ⊆ markSpouses sp members p := by
  induction sp with
  | nil => intro p; exact fun _ h => h
  | cons s sp ih =>
    intro p
    unfold markSpouses at ih ⊢
    rw [List.foldl_cons]
    intro y hy
    apply ih
    split
    · exact mem_addId.mpr (Or.inr hy)
    · exact hy

theorem mem_markSpouses {sp members : List Member} {p : Ids} {x : String}
    (h : x ∈ markSpouses sp members p) : x ∈ p ∨ ∃ s ∈ sp, s.id = x := by
  induction sp generalizing p with
  | nil => exact Or.inl h
  | cons s sp ih =>
    unfold markSpouses at h ih
    rw [List.foldl_cons] at h
    rcases ih h with hin | ⟨s', hs', rfl⟩
    · by_cases hc : s.id = x
      · exact Or.inr ⟨s, List.mem_cons_self s sp, hc⟩
      · left
        revert hin
        split
        · intro hin
          rcases mem_addId.mp hin with rfl | hin
          · exact absurd rfl hc
          · exact hin
        · exact id
    · exact Or.inr ⟨s', List.mem_cons_of_mem s hs', rfl⟩

/-- One applied step of the child loop, written out. -/
theorem childStep_some (build : Member → Ids → Option (FamilyNodeData × Ids))
    (members : List Member) (ns : List FamilyNodeData) (p : Ids) (cid : String) :
    childStep build members (some (ns, p)) cid =
      if cid ∈ p then some (ns, p)
      else
        match members.find? (fun m => m.id == cid) with
        | none => some (ns, p)
        | some child =>
          match build child p with
          | none => none
          | some (node, p') => some (ns ++ [node], p') := rfl

theorem foldl_childStep_none (build : Member → Ids → Option (FamilyNodeData × Ids))
    (members : List Member) (cids : List String) :
    cids.foldl (childStep build members) none = none := by
  induction cids with
  | nil => rfl
  | cons cid rest ih => rw [List.foldl_cons]; exact ih

/-- Monotonicity of the child loop, given monotonicity of the recursive
callback. -/
theorem foldl_childStep_mono (build : Member → Ids → Option (FamilyNodeData × Ids))
    (members : List Member)
    (hb : ∀ (child : Member) (p : Ids) (r : FamilyNodeData × Ids),
      build child p = some r → p ⊆ r.2) :
    ∀ (cids : List String) (ns0 : List FamilyNodeData) (p0 : Ids)
      (r : List FamilyNodeData × Ids),
      cids.foldl (childStep build members) (some (ns0, p0)) = some r → p0 ⊆ r.2 := by
  intro cids
  induction cids with
  | nil =>
    intro ns0 p0 r h
    cases h
    exact fun _ hy => hy
  | cons cid rest ih =>
    intro ns0 p0 r h
    rw [List.foldl_cons, childStep_some] at h
    split at h
    · exact ih ns0 p0 r h
    · split at h
      · exact ih ns0 p0 r h
      · rename_i child hfind
        cases hsb : build child p0 with
        | none => rw [hsb] at h; rw [foldl_childStep_none] at h; cases h
        | some r1 =>
          obtain ⟨n1, p1⟩ := r1
          rw [hsb] at h
          dsimp only at h
          exact fun y hy => ih (ns0 ++ [n1]) p1 r h (hb child p0 (n1, p1) hsb hy)

/-- Monotonicity: `buildSubtreeF` only grows the processed set. -/
theorem buildSubtreeF_mono : ∀ (fuel : Nat) (members : List Member) (primary : Member)
    (p : Ids) (g : Int) (r : FamilyNodeData × Ids),
    buildSubtreeF fuel members primary p g = some r → p ⊆ r.2 := by
  intro fuel
  induction fuel with
  | zero => intro members primary p g r h; simp [buildSubtreeF] at h
  | succ fuel ih =>
    intro members primary p g r h
    simp only [buildSubtreeF] at h
    cases hbc : (collectChildIds primary.id (getSpouses primary.id members) members).foldl
        (childStep (fun child processedIds =>
          buildSubtreeF fuel members child processedIds (g + 1)) members)
        (some ([], markSpouses (getSpouses primary.id members) members
          (addId p primary.id))) with
    | none => rw [hbc] at h; cases h
    | some r2 =>
      obtain ⟨cn, p2⟩ := r2
      rw [hbc] at h
      dsimp only at h
      cases h
      intro y hy
      exact foldl_childStep_mono _ members
        (fun c pp rr hc => ih members c pp (g + 1) rr hc) _ [] _ (cn, p2) hbc
        (markSpouses_subset _ _ _ (mem_addId.mpr (Or.inr hy)))

/-- Fuel sufficiency for the child loop, given sufficiency (at budget `F`) of
the recursive callback. -/
theorem foldl_childStep_isSome (build : Member → Ids → Option (FamilyNodeData × Ids))
    (members : List Member) (F : Nat)
    (hmono : ∀ (child : Member) (p : Ids) (r : FamilyNodeData × Ids),
      build child p = some r → p ⊆ r.2)
    (hbs : ∀ (child : Member) (p : Ids), child ∈ members →
      unprocessedCount members (addId p child.id) + 1 ≤ F → (build child p).isSome) :
    ∀ (cids : List String) (ns0 : List FamilyNodeData) (p0 : Ids),
      unprocessedCount members p0 ≤ F →
      (cids.foldl (childStep build members) (some (ns0, p0))).isSome := by
  intro cids
  induction cids with
  | nil => intro ns0 p0 _; rfl
  | cons cid rest ih =>
    intro ns0 p0 hcount
    rw [List.foldl_cons, childStep_some]
    split
    · exact ih ns0 p0 hcount
    · rename_i hskip
      cases hfind : members.find? (fun m => m.id == cid) with
      | none => exact ih ns0 p0 hcount
      | some child =>
        dsimp only
        have hchild : child ∈ members := List.mem_of_find?_eq_some hfind
        have hcid : child.id = cid := by
          have := List.find?_some hfind
          rwa [beq_iff_eq] at this
        have hlt : unprocessedCount members (addId p0 child.id) + 1 ≤ F := by
          have := unprocessedCount_addId_lt members
            (List.mem_map_of_mem Member.id hchild)
            (by rw [hcid]; exact hskip)
          omega
        have hs := hbs child p0 hchild hlt
        cases hsb : build child p0 with
        | none => rw [hsb] at hs; cases hs
        | some r1 =>
          obtain ⟨n1, p1⟩ := r1
          have hple : unprocessedCount members p1 ≤ F := by
            have hsubs := hmono child p0 (n1, p1) hsb
            have h2 : unprocessedCount members p1 ≤ unprocessedCount members p0 :=
              unprocessedCount_le_of_subset members hsubs
            omega
          exact ih (ns0 ++ [n1]) p1 hple

/-- Fuel sufficiency: fuel exceeding the number of unprocessed member ids
(after inserting the primary id) never runs out. -/
theorem buildSubtreeF_isSome : ∀ (fuel : Nat) (members : List Member) (primary : Member)
    (p : Ids) (g : Int), primary ∈ members →
    unprocessedCount members (addId p primary.id) + 1 ≤ fuel →
    (buildSubtreeF fuel members primary p g).isSome := by
  intro fuel
  induction fuel with
  | zero => intro members primary p g _ h; omega
  | succ fuel ih =>
    intro members primary p g hmem hcount
    simp only [buildSubtreeF]
    have hcount2 : unprocessedCount members
        (markSpouses (getSpouses primary.id members) members (addId p primary.id)) ≤ fuel := by
      have := unprocessedCount_le_of_subset members
        (markSpouses_subset (getSpouses primary.id members) members (addId p primary.id))
      omega
    have hsome := foldl_childStep_isSome
      (fun child processedIds => buildSubtreeF fuel members child processedIds (g + 1))
      members fuel
      (fun c pp rr hc => buildSubtreeF_mono fuel members c pp (g + 1) rr hc)
      (fun c pp hc hcnt => ih members c pp (g + 1) hc hcnt)
      (collectChildIds primary.id (getSpouses primary.id members) members) []
      (markSpouses (getSpouses primary.id members) members (addId p primary.id))
      hcount2
    cases hbc : (collectChildIds primary.id (getSpouses primary.id members) members).foldl
        (childStep (fun child processedIds =>
          buildSubtreeF fuel members child processedIds (g + 1)) members)
        (some ([], markSpouses (getSpouses primary.id members) members
          (addId p primary.id))) with
    | none => rw [hbc] at hsome; cases hsome
    | some r2 =>
      obtain ⟨n2, p2⟩ := r2
      rfl

/-- The wrapper's fuel (`members.length + 1`) is always sufficient, so
`buildSubtree` is the unique value of `buildSubtreeF`. -/
theorem buildSubtree_eq_some (members : List Member) (primary : Member) (p : Ids)
    (g : Int) (hmem : primary ∈ members) :
    buildSubtreeF (members.length + 1) members primary p g =
      some (buildSubtree members primary p g) := by
  have hcount : unprocessedCount members (addId p primary.id) + 1 ≤ members.length + 1 := by
    have := unprocessedCount_le_length members (addId p primary.id)
    omega
  have hs := buildSubtreeF_isSome (members.length + 1) members primary p g hmem hcount
  cases hsb : buildSubtreeF (members.length + 1) members primary p g with
  | none => rw [hsb] at hs; cases hs
  | some r =>
    unfold buildSubtree
    rw [hsb]
    rfl


/-! ## Collected ids of a built subtree -/

theorem collectIds_node (primary : Member) (g : Int) (sp members : List Member)
    (childNodes : List FamilyNodeData) :
    collectIds (if childNodes.length > 0 then
        setChildren (memberToNode primary g sp members) childNodes
      else memberToNode primary g sp members) =
    primary.id :: collectIdsList childNodes := by
  split <;> rename_i h
  · rfl
  · cases childNodes with
    | nil => rfl
    | cons c cs => simp at h

/-- The primary node carries the primary member's id. -/
theorem buildSubtreeF_attr_id (fuel : Nat) (members : List Member) (primary : Member)
    (p : Ids) (g : Int) (n : FamilyNodeData) (p' : Ids)
    (h : buildSubtreeF fuel members primary p g = some (n, p')) :
    n.attributes.id = primary.id := by
  cases fuel with
  | zero => simp [buildSubtreeF] at h
  | succ fuel =>
    simp only [buildSubtreeF] at h
    cases hbc : (collectChildIds primary.id (getSpouses primary.id members) members).foldl
        (childStep (fun child processedIds =>
          buildSubtreeF fuel members child processedIds (g + 1)) members)
        (some ([], markSpouses (getSpouses primary.id members) members
          (addId p primary.id))) with
    | none => rw [hbc] at h; cases h
    | some r2 =>
      obtain ⟨cn, p2⟩ := r2
      rw [hbc] at h
      dsimp only at h
      cases h
      split <;> rfl

/-- Collected-id invariants of the child loop, given those of the recursive
callback: the newly collected ids are distinct, all processed, and none was
processed before the loop started. -/
theorem foldl_childStep_collect (build : Member → Ids → Option (FamilyNodeData × Ids))
    (members : List Member)
    (hmono : ∀ (child : Member) (p : Ids) (r : FamilyNodeData × Ids),
      build child p = some r → p ⊆ r.2)
    (hb : ∀ (child : Member) (p : Ids) (n : FamilyNodeData) (p' : Ids),
      build child p = some (n, p') →
      (collectIds n).Nodup ∧ (∀ x ∈ collectIds n, x ∈ p') ∧
      (∀ x ∈ collectIds n, x = child.id ∨ x ∉ p)) :
    ∀ (cids : List String) (ns0 : List FamilyNodeData) (p0 : Ids)
      (ns' : List FamilyNodeData) (p' : Ids),
      cids.foldl (childStep build members) (some (ns0, p0)) = some (ns', p') →
      ∃ delta, ns' = ns0 ++ delta ∧ p0 ⊆ p' ∧ (collectIdsList delta).Nodup ∧
        (∀ x ∈ collectIdsList delta, x ∈ p') ∧
        (∀ x ∈ collectIdsList delta, x ∉ p0) := by
  intro cids
  induction cids with
  | nil =>
    intro ns0 p0 ns' p' h
    cases h
    exact ⟨[], by simp, fun _ hy => hy, List.nodup_nil, by simp [collectIdsList],
      by simp [collectIdsList]⟩
  | cons cid rest ih =>
    intro ns0 p0 ns' p' h
    rw [List.foldl_cons, childStep_some] at h
    split at h
    · exact ih ns0 p0 ns' p' h
    · rename_i hskip
      split at h
      · exact ih ns0 p0 ns' p' h
      · rename_i child hfind
        have hcid : child.id = cid := by
          have := List.find?_some hfind
          rwa [beq_iff_eq] at this
        cases hsb : build child p0 with
        | none => rw [hsb] at h; rw [foldl_childStep_none] at h; cases h
        | some r1 =>
          obtain ⟨n1, p1⟩ := r1
          rw [hsb] at h
          dsimp only at h
          obtain ⟨delta1, hns, hp1p, hnd1, hsubp1, hnotin1⟩ :=
            ih (ns0 ++ [n1]) p1 ns' p' h
          obtain ⟨hndn, hsubn, horn⟩ := hb child p0 n1 p1 hsb
          have hm01 : p0 ⊆ p1 := hmono child p0 (n1, p1) hsb
          refine ⟨n1 :: delta1, by simp [hns], fun y hy => hp1p (hm01 hy), ?_, ?_, ?_⟩
          · show (collectIds n1 ++ collectIdsList delta1).Nodup
            rw [List.nodup_append]
            refine ⟨hndn, hnd1, ?_⟩
            intro x hx1 hx2
            exact hnotin1 x hx2 (hsubn x hx1)
          · intro x hx
            rcases List.mem_append.mp hx with hx | hx
            · exact hp1p (hsubn x hx)
            · exact hsubp1 x hx
          · intro x hx
            rcases List.mem_append.mp hx with hx | hx
            · rcases horn x hx with rfl | hnp
              · rw [hcid]; exact hskip
              · exact hnp
            · intro hxp
              exact hnotin1 x hx (hm01 hxp)

/-- Collected-id invariants of `buildSubtreeF`: within one call the collected
primary ids are distinct, all processed, and (apart from the primary itself)
none was processed before the call. -/
theorem buildSubtreeF_collect : ∀ (fuel : Nat) (members : List Member) (primary : Member)
    (p : Ids) (g : Int) (n : FamilyNodeData) (p' : Ids),
    buildSubtreeF fuel members primary p g = some (n, p') →
    (collectIds n).Nodup ∧ (∀ x ∈ collectIds n, x ∈ p') ∧
    (∀ x ∈ collectIds n, x = primary.id ∨ x ∉ p) := by
  intro fuel
  induction fuel with
  | zero => intro members primary p g n p' h; simp [buildSubtreeF] at h
  | succ fuel ih =>
    intro members primary p g n p' h
    simp only [buildSubtreeF] at h
    cases hbc : (collectChildIds primary.id (getSpouses primary.id members) members).foldl
        (childStep (fun child processedIds =>
          buildSubtreeF fuel members child processedIds (g + 1)) members)
        (some ([], markSpouses (getSpouses primary.id members) members
          (addId p primary.id))) with
    | none => rw [hbc] at h; cases h
    | some r2 =>
      obtain ⟨cn, p2⟩ := r2
      rw [hbc] at h
      dsimp only at h
      cases h
      obtain ⟨delta, hdelta, hps, hnd2, hsub2, hnotin2⟩ := foldl_childStep_collect _ members
        (fun c pp rr hc => buildSubtreeF_mono fuel members c pp (g + 1) rr hc)
        (fun c pp nn pp' hc => ih members c pp (g + 1) nn pp' hc)
        _ [] _ cn _ hbc
      rw [List.nil_append] at hdelta
      subst hdelta
      have hprim : primary.id ∈ markSpouses (getSpouses primary.id members) members
          (addId p primary.id) :=
        markSpouses_subset _ _ _ (mem_addId.mpr (Or.inl rfl))
      rw [collectIds_node]
      refine ⟨?_, ?_, ?_⟩
      · rw [List.nodup_cons]
        exact ⟨fun hc => hnotin2 primary.id hc hprim, hnd2⟩
      · intro x hx
        rcases List.mem_cons.mp hx with rfl | hx
        · exact hps hprim
        · exact hsub2 x hx
      · intro x hx
        rcases List.mem_cons.mp hx with rfl | hx
        · exact Or.inl rfl
        · exact Or.inr fun hxp => hnotin2 x hx
            (markSpouses_subset _ _ _ (mem_addId.mpr (Or.inr hxp)))

/-! ## C10: primary-node uniqueness -/

/-- **C10 (counterexample).** On a collection with a standalone root `r` and a
two-member parent cycle `x ⇄ z` (unreachable from any root), the returned
tree carries the member id `z` as a primary `attributes.id` twice: once as a
child inside the subtree built for the leftover member `x`, and once again as
a top-level node, because the leftover list is computed before the leftover
loop runs and `buildSubtree` never re-checks the processed set for its own
primary member. -/
theorem c10_duplicate_counterexample :
    (optCollectIds (transformToTreeData c10CounterMembers)).count "z" = 2 ∧
    (c10CounterMembers.map Member.id).count "z" = 1 ∧
    ¬(optCollectIds (transformToTreeData c10CounterMembers)).Nodup := by decide

/-- **C10 (amended).** Within the subtree produced by any single
`buildSubtree` invocation — on every input, including cyclic or otherwise
inconsistent data — no id occurs twice as a primary `attributes.id`: the
shared processed set guarantees it.  (Across the whole returned tree the
guarantee fails only for the leftover pass, as the counterexample shows.) -/
theorem c10_amended_nodup (members : List Member) (primary : Member) (p : Ids)
    (g : Int) : (collectIds (buildSubtree members primary p g).1).Nodup := by
  unfold buildSubtree
  cases hsb : buildSubtreeF (members.length + 1) members primary p g with
  | none => exact List.nodup_cons.mpr ⟨by simp [collectIdsList], List.nodup_nil⟩
  | some r =>
    obtain ⟨n, p'⟩ := r
    exact (buildSubtreeF_collect (members.length + 1) members primary p g n p' hsb).1

/-! ## Tree builder: coverage and closure of the processed set -/

theorem getSpouses_subset {mid : String} {members : List Member} :
    ∀ s ∈ getSpouses mid members, s ∈ members := by
  intro s hs
  unfold getSpouses at hs
  exact List.mem_of_mem_filter hs

/-- The primary member's id is processed by a successful call. -/
theorem buildSubtreeF_mem_self (fuel : Nat) (members : List Member) (primary : Member)
    (p : Ids) (g : Int) (n : FamilyNodeData) (p' : Ids)
    (h : buildSubtreeF fuel members primary p g = some (n, p')) : primary.id ∈ p' := by
  obtain ⟨-, hsub, -⟩ := buildSubtreeF_collect fuel members primary p g n p' h
  have : primary.id ∈ collectIds n := by
    have hattr := buildSubtreeF_attr_id fuel members primary p g n p' h
    cases n with
    | mk nm attrs cs =>
      rw [show (FamilyNodeData.mk nm attrs cs).attributes = attrs from rfl] at hattr
      rw [← hattr]
      rw [show collectIds (FamilyNodeData.mk nm attrs cs) =
        attrs.id :: collectIdsList cs from rfl]
      exact List.mem_cons_self _ _
  exact hsub _ this

/-- Every id in the child list that resolves to a member record ends up
processed. -/
theorem foldl_childStep_covers (build : Member → Ids → Option (FamilyNodeData × Ids))
    (members : List Member)
    (hmono : ∀ (child : Member) (p : Ids) (r : FamilyNodeData × Ids),
      build child p = some r → p ⊆ r.2)
    (hbmem : ∀ (child : Member) (p : Ids) (n : FamilyNodeData) (p' : Ids),
      build child p = some (n, p') → child.id ∈ p') :
    ∀ (cids : List String) (ns0 : List FamilyNodeData) (p0 : Ids)
      (ns' : List FamilyNodeData) (p' : Ids),
      cids.foldl (childStep build members) (some (ns0, p0)) = some (ns', p') →
      ∀ cid ∈ cids, (∃ c ∈ members, c.id = cid) → cid ∈ p' := by
  intro cids
  induction cids with
  | nil => intro ns0 p0 ns' p' _ cid hcid; cases hcid
  | cons cid0 rest ih =>
    intro ns0 p0 ns' p' h cid hcid hex
    rw [List.foldl_cons, childStep_some] at h
    rcases List.mem_cons.mp hcid with rfl | hcid
    · split at h
      · rename_i hin
        exact foldl_childStep_mono build members hmono rest ns0 p0 (ns', p') h hin
      · split at h
        · rename_i hnone
          obtain ⟨c, hc, rfl⟩ := hex
          have : (members.find? (fun m => m.id == c.id)).isSome := by
            rw [List.find?_isSome]
            exact ⟨c, hc, by simp⟩
          rw [hnone] at this
          cases this
        · rename_i child hfind
          have hcid' : child.id = cid := by
            have := List.find?_some hfind
            rwa [beq_iff_eq] at this
          cases hsb : build child p0 with
          | none => rw [hsb] at h; rw [foldl_childStep_none] at h; cases h
          | some r1 =>
            obtain ⟨n1, p1⟩ := r1
            rw [hsb] at h
            dsimp only at h
            have : child.id ∈ p1 := hbmem child p0 n1 p1 hsb
            rw [hcid'] at this
            exact foldl_childStep_mono build members hmono rest (ns0 ++ [n1]) p1
              (ns', p') h this
    · split at h
      · exact ih ns0 p0 ns' p' h cid hcid hex
      · split at h
        · exact ih ns0 p0 ns' p' h cid hcid hex
        · rename_i child hfind
          cases hsb : build child p0 with
          | none => rw [hsb] at h; rw [foldl_childStep_none] at h; cases h
          | some r1 =>
            obtain ⟨n1, p1⟩ := r1
            rw [hsb] at h
            dsimp only at h
            exact ih (ns0 ++ [n1]) p1 ns' p' h cid hcid hex

/-- Membership in the folded child-id accumulation. -/
theorem mem_foldl_addId_ids (l : List Member) :
    ∀ (init : Ids) (x : String),
      x ∈ l.foldl (fun acc c => addId acc c.id) init ↔
      x ∈ init ∨ ∃ c ∈ l, c.id = x := by
  induction l with
  | nil => intro init x; simp
  | cons c l ih =>
    intro init x
    rw [List.foldl_cons, ih, mem_addId]
    simp only [List.exists_mem_cons_iff]
    tauto

/-- Membership in the spouse-children accumulation loop. -/
theorem mem_spouseChildrenFold (members : List Member) :
    ∀ (sp : List Member) (init : Ids) (x : String),
      x ∈ sp.foldl (fun acc spouse =>
        (getDirectChildren spouse.id members).foldl (fun a c => addId a c.id) acc) init ↔
      x ∈ init ∨ ∃ s ∈ sp, ∃ c ∈ getDirectChildren s.id members, c.id = x := by
  intro sp
  induction sp with
  | nil => intro init x; simp
  | cons s sp ih =>
    intro init x
    rw [List.foldl_cons, ih, mem_foldl_addId_ids]
    simp only [List.exists_mem_cons_iff]
    exact or_assoc

/-- Membership in `collectChildIds`: children of the primary member and of
every spouse. -/
theorem mem_collectChildIds (pid : String) (sp members : List Member) (x : String) :
    x ∈ collectChildIds pid sp members ↔
    (∃ c ∈ getDirectChildren pid members, c.id = x) ∨
    (∃ s ∈ sp, ∃ c ∈ getDirectChildren s.id members, c.id = x) := by
  unfold collectChildIds
  rw [mem_spouseChildrenFold, mem_foldl_addId_ids]
  simp

/-- Whether `pid` occupies a parent slot of `c` (the `getDirectChildren`
test, line 75). -/
theorem mem_getDirectChildren {pid : String} {members : List Member} {c : Member} :
    c ∈ getDirectChildren pid members ↔
    c ∈ members ∧ (c.parentId = some pid ∨ c.secondParentId = some pid) := by
  unfold getDirectChildren
  rw [List.mem_filter]
  simp

/-- Closure of the child loop: any id processed by the loop either was
processed before, or has all its resolvable children processed by the end. -/
theorem foldl_childStep_closed (build : Member → Ids → Option (FamilyNodeData × Ids))
    (members : List Member)
    (hmono : ∀ (child : Member) (p : Ids) (r : FamilyNodeData × Ids),
      build child p = some r → p ⊆ r.2)
    (hb : ∀ (child : Member) (p : Ids) (n : FamilyNodeData) (p' : Ids),
      build child p = some (n, p') → ∀ x ∈ members, x.id ∈ p' → x.id ∈ p ∨
        ∀ c ∈ members, (c.parentId = some x.id ∨ c.secondParentId = some x.id) →
          c.id ∈ p') :
    ∀ (cids : List String) (ns0 : List FamilyNodeData) (p0 : Ids)
      (ns' : List FamilyNodeData) (p' : Ids),
      cids.foldl (childStep build members) (some (ns0, p0)) = some (ns', p') →
      ∀ x ∈ members, x.id ∈ p' → x.id ∈ p0 ∨
        ∀ c ∈ members, (c.parentId = some x.id ∨ c.secondParentId = some x.id) →
          c.id ∈ p' := by
  intro cids
  induction cids with
  | nil =>
    intro ns0 p0 ns' p' h x hx hxp
    cases h
    exact Or.inl hxp
  | cons cid rest ih =>
    intro ns0 p0 ns' p' h x hx hxp
    rw [List.foldl_cons, childStep_some] at h
    split at h
    · exact ih ns0 p0 ns' p' h x hx hxp
    · split at h
      · exact ih ns0 p0 ns' p' h x hx hxp
      · rename_i child hfind
        cases hsb : build child p0 with
        | none => rw [hsb] at h; rw [foldl_childStep_none] at h; cases h
        | some r1 =>
          obtain ⟨n1, p1⟩ := r1
          rw [hsb] at h
          dsimp only at h
          have hrest := ih (ns0 ++ [n1]) p1 ns' p' h x hx hxp
          rcases hrest with hin1 | hclosed
          · rcases hb child p0 n1 p1 hsb x hx hin1 with hin0 | hclosed1
            · exact Or.inl hin0
            · refine Or.inr fun c hc hslot => ?_
              exact foldl_childStep_mono build members hmono rest (ns0 ++ [n1]) p1
                (ns', p') h (hclosed1 c hc hslot)
          · exact Or.inr hclosed

/-- Closure of `buildSubtreeF`: any id processed by a successful call either
was processed before the call, or has all its resolvable children (by either
parent slot) processed by the end. -/
theorem buildSubtreeF_closed : ∀ (fuel : Nat) (members : List Member) (primary : Member)
    (p : Ids) (g : Int) (n : FamilyNodeData) (p' : Ids),
    buildSubtreeF fuel members primary p g = some (n, p') →
    ∀ x ∈ members, x.id ∈ p' → x.id ∈ p ∨
      ∀ c ∈ members, (c.parentId = some x.id ∨ c.secondParentId = some x.id) →
        c.id ∈ p' := by
  intro fuel
  induction fuel with
  | zero => intro members primary p g n p' h; simp [buildSubtreeF] at h
  | succ fuel ih =>
    intro members primary p g n p' h x hx hxp
    simp only [buildSubtreeF] at h
    cases hbc : (collectChildIds primary.id (getSpouses primary.id members) members).foldl
        (childStep (fun child processedIds =>
          buildSubtreeF fuel members child processedIds (g + 1)) members)
        (some ([], markSpouses (getSpouses primary.id members) members
          (addId p primary.id))) with
    | none => rw [hbc] at h; cases h
    | some r2 =>
      obtain ⟨cn, p2⟩ := r2
      rw [hbc] at h
      dsimp only at h
      cases h
      have hmono' : ∀ (c : Member) (pp : Ids) (rr : FamilyNodeData × Ids),
          buildSubtreeF fuel members c pp (g + 1) = some rr → pp ⊆ rr.2 :=
        fun c pp rr hc => buildSubtreeF_mono fuel members c pp (g + 1) rr hc
      have hcovers := foldl_childStep_covers _ members hmono'
        (fun c pp nn pp' hc => buildSubtreeF_mem_self fuel members c pp (g + 1) nn pp' hc)
        _ [] _ cn _ hbc
      have hclosed := foldl_childStep_closed _ members hmono'
        (fun c pp nn pp' hc => ih members c pp (g + 1) nn pp' hc)
        _ [] _ cn _ hbc x hx hxp
      rcases hclosed with hin2 | hclosed
      · -- x was marked before the child loop: it is the primary or a spouse
        rcases mem_markSpouses hin2 with hin1 | ⟨sp, hsp, hspid⟩
        · rcases mem_addId.mp hin1 with hxid | hinp
          · -- x is the primary member: its children are all collected
            refine Or.inr fun c hc hslot => ?_
            apply hcovers c.id
            · rw [mem_collectChildIds]
              exact Or.inl ⟨c, mem_getDirectChildren.mpr ⟨hc, by rw [← hxid]; exact hslot⟩,
                rfl⟩
            · exact ⟨c, hc, rfl⟩
          · exact Or.inl hinp
        · -- x was marked as a spouse: the spouse's children are all collected
          refine Or.inr fun c hc hslot => ?_
          apply hcovers c.id
          · rw [mem_collectChildIds]
            refine Or.inr ⟨sp, hsp, c, mem_getDirectChildren.mpr ⟨hc, ?_⟩, rfl⟩
            rw [hspid]
            exact hslot
          · exact ⟨c, hc, rfl⟩
      · exact Or.inr hclosed

/-- Every processed id is an input id or a member id. -/
theorem foldl_childStep_bounded (build : Member → Ids → Option (FamilyNodeData × Ids))
    (members : List Member)
    (hb : ∀ (child : Member) (p : Ids) (r : FamilyNodeData × Ids), child ∈ members →
      build child p = some r → ∀ x ∈ r.2, x ∈ p ∨ x ∈ members.map Member.id) :
    ∀ (cids : List String) (ns0 : List FamilyNodeData) (p0 : Ids)
      (ns' : List FamilyNodeData) (p' : Ids),
      cids.foldl (childStep build members) (some (ns0, p0)) = some (ns', p') →
      ∀ x ∈ p', x ∈ p0 ∨ x ∈ members.map Member.id := by
  intro cids
  induction cids with
  | nil =>
    intro ns0 p0 ns' p' h x hx
    cases h
    exact Or.inl hx
  | cons cid rest ih =>
    intro ns0 p0 ns' p' h x hx
    rw [List.foldl_cons, childStep_some] at h
    split at h
    · exact ih ns0 p0 ns' p' h x hx
    · split at h
      · exact ih ns0 p0 ns' p' h x hx
      · rename_i child hfind
        have hchild : child ∈ members := List.mem_of_find?_eq_some hfind
        cases hsb : build child p0 with
        | none => rw [hsb] at h; rw [foldl_childStep_none] at h; cases h
        | some r1 =>
          obtain ⟨n1, p1⟩ := r1
          rw [hsb] at h
          dsimp only at h
          rcases ih (ns0 ++ [n1]) p1 ns' p' h x hx with hin1 | hid
          · exact hb child p0 (n1, p1) hchild hsb x hin1
          · exact Or.inr hid

/-- `buildSubtreeF` only ever processes input ids and member ids. -/
theorem buildSubtreeF_bounded : ∀ (fuel : Nat) (members : List Member) (primary : Member)
    (p : Ids) (g : Int) (r : FamilyNodeData × Ids), primary ∈ members →
    buildSubtreeF fuel members primary p g = some r →
    ∀ x ∈ r.2, x ∈ p ∨ x ∈ members.map Member.id := by
  intro fuel
  induction fuel with
  | zero => intro members primary p g r _ h; simp [buildSubtreeF] at h
  | succ fuel ih =>
    intro members primary p g r hmem h x hx
    simp only [buildSubtreeF] at h
    cases hbc : (collectChildIds primary.id (getSpouses primary.id members) members).foldl
        (childStep (fun child processedIds =>
          buildSubtreeF fuel members child processedIds (g + 1)) members)
        (some ([], markSpouses (getSpouses primary.id members) members
          (addId p primary.id))) with
    | none => rw [hbc] at h; cases h
    | some r2 =>
      obtain ⟨cn, p2⟩ := r2
      rw [hbc] at h
      dsimp only at h
      cases h
      rcases foldl_childStep_bounded _ members
        (fun c pp rr hc hsb' => ih members c pp (g + 1) rr hc hsb')
        _ [] _ cn _ hbc x hx with hin2 | hid
      · rcases mem_markSpouses hin2 with hin1 | ⟨sp, hsp, hspid⟩
        · rcases mem_addId.mp hin1 with rfl | hinp
          · exact Or.inr (List.mem_map_of_mem Member.id hmem)
          · exact Or.inl hinp
        · exact Or.inr (hspid ▸ List.mem_map_of_mem Member.id (getSpouses_subset sp hsp))
      · exact Or.inr hid

/-! ## The no-spouse case: the processed set is exactly the collected ids -/

theorem markSpouses_nil (members : List Member) (p : Ids) :
    markSpouses [] members p = p := rfl

/-- With no `spouseId` links and no second parents anywhere, `getSpouses`
finds nothing. -/
theorem getSpouses_nil {members : List Member}
    (hns : ∀ m ∈ members, m.spouseId = none ∧ m.secondParentId = none)
    (mid : String) : getSpouses mid members = [] := by
  unfold getSpouses
  have hown : (match members.find? (fun m => m.id == mid) with
      | some member =>
        match member.spouseId with
        | some s => if strTruthy (some s) then addId [] s else []
        | none => []
      | none => ([] : Ids)) = [] := by
    cases hfind : members.find? (fun m => m.id == mid) with
    | none => rfl
    | some member =>
      have := (hns member (List.mem_of_find?_eq_some hfind)).1
      simp [this]
  rw [hown]
  have hback : members.foldl (spouseBackStep mid) [] = [] := by
    have : ∀ (l : List Member) (init : Ids), (∀ m ∈ l, m.spouseId = none) →
        l.foldl (spouseBackStep mid) init = init := by
      intro l
      induction l with
      | nil => intro init _; rfl
      | cons m l ih =>
        intro init hl
        rw [List.foldl_cons]
        have hm : m.spouseId = none := hl m (List.mem_cons_self m l)
        have hstep : spouseBackStep mid init m = init := by
          unfold spouseBackStep
          rw [hm]
          rfl
        rw [hstep]
        exact ih init fun m' hm' => hl m' (List.mem_cons_of_mem m hm')
    exact this members [] fun m hm => (hns m hm).1
  dsimp only
  rw [hback]
  have hshared : members.foldl (sharedChildStep mid) [] = [] := by
    have : ∀ (l : List Member) (init : Ids), (∀ m ∈ l, m.secondParentId = none) →
        l.foldl (sharedChildStep mid) init = init := by
      intro l
      induction l with
      | nil => intro init _; rfl
      | cons m l ih =>
        intro init hl
        rw [List.foldl_cons]
        have hm : m.secondParentId = none := hl m (List.mem_cons_self m l)
        have hstep : sharedChildStep mid init m = init := by
          unfold sharedChildStep
          rw [hm]
          cases hp : m.parentId with
          | none => rfl
          | some p => simp [hm]
        rw [hstep]
        exact ih init fun m' hm' => hl m' (List.mem_cons_of_mem m hm')
    exact this members [] fun m hm => (hns m hm).2
  rw [hshared]
  simp

/-- In the no-spouse setting, the processed set after the child loop is
exactly the starting set plus the collected subtree ids. -/
theorem foldl_childStep_processed (build : Member → Ids → Option (FamilyNodeData × Ids))
    (members : List Member)
    (hb : ∀ (child : Member) (p : Ids) (n : FamilyNodeData) (p' : Ids),
      build child p = some (n, p') → ∀ x, x ∈ p' ↔ x ∈ p ∨ x ∈ collectIds n) :
    ∀ (cids : List String) (ns0 : List FamilyNodeData) (p0 : Ids)
      (ns' : List FamilyNodeData) (p' : Ids),
      cids.foldl (childStep build members) (some (ns0, p0)) = some (ns', p') →
      ∃ delta, ns' = ns0 ++ delta ∧
        ∀ x, x ∈ p' ↔ x ∈ p0 ∨ x ∈ collectIdsList delta := by
  intro cids
  induction cids with
  | nil =>
    intro ns0 p0 ns' p' h
    cases h
    exact ⟨[], by simp, fun x => by simp [collectIdsList]⟩
  | cons cid rest ih =>
    intro ns0 p0 ns' p' h
    rw [List.foldl_cons, childStep_some] at h
    split at h
    · exact ih ns0 p0 ns' p' h
    · split at h
      · exact ih ns0 p0 ns' p' h
      · rename_i child hfind
        cases hsb : build child p0 with
        | none => rw [hsb] at h; rw [foldl_childStep_none] at h; cases h
        | some r1 =>
          obtain ⟨n1, p1⟩ := r1
          rw [hsb] at h
          dsimp only at h
          obtain ⟨delta1, hns, hiff1⟩ := ih (ns0 ++ [n1]) p1 ns' p' h
          refine ⟨n1 :: delta1, by simp [hns], fun x => ?_⟩
          rw [hiff1 x, hb child p0 n1 p1 hsb x]
          rw [show collectIdsList (n1 :: delta1) =
            collectIds n1 ++ collectIdsList delta1 from rfl, List.mem_append]
          tauto

/-- In the no-spouse setting, the processed set after `buildSubtreeF` is
exactly the starting set plus the collected subtree ids. -/
theorem buildSubtreeF_processed {members : List Member}
    (hns : ∀ m ∈ members, m.spouseId = none ∧ m.secondParentId = none) :
    ∀ (fuel : Nat) (primary : Member) (p : Ids) (g : Int) (n : FamilyNodeData)
      (p' : Ids),
      buildSubtreeF fuel members primary p g = some (n, p') →
      ∀ x, x ∈ p' ↔ x ∈ p ∨ x ∈ collectIds n := by
  intro fuel
  induction fuel with
  | zero => intro primary p g n p' h; simp [buildSubtreeF] at h
  | succ fuel ih =>
    intro primary p g n p' h x
    simp only [buildSubtreeF, getSpouses_nil hns, markSpouses_nil] at h
    cases hbc : (collectChildIds primary.id [] members).foldl
        (childStep (fun child processedIds =>
          buildSubtreeF fuel members child processedIds (g + 1)) members)
        (some ([], addId p primary.id)) with
    | none => rw [hbc] at h; cases h
    | some r2 =>
      obtain ⟨cn, p2⟩ := r2
      rw [hbc] at h
      dsimp only at h
      cases h
      obtain ⟨delta, hdelta, hiff⟩ := foldl_childStep_processed _ members
        (fun c pp nn pp' hc => ih c pp (g + 1) nn pp' hc) _ [] _ cn _ hbc
      rw [List.nil_append] at hdelta
      subst hdelta
      rw [collectIds_node]
      rw [hiff x, mem_addId]
      rw [List.mem_cons]
      tauto

/-! ## C1: round-trip on a single lineage -/

theorem inTreeParent_eq_true_iff {pid : Option String} {ids : List String} :
    inTreeParent pid ids = true ↔ ∃ p, pid = some p ∧ p ≠ "" ∧ p ∈ ids := by
  cases pid with
  | none => simp [inTreeParent]
  | some p => simp [inTreeParent, strTruthy]

theorem mem_findRoots_iff {members : List Member} {m : Member} :
    m ∈ findRoots members ↔ m ∈ members ∧
      inTreeParent m.parentId (members.map Member.id) = false ∧
      inTreeParent m.secondParentId (members.map Member.id) = false := by
  unfold findRoots
  rw [List.mem_filter]
  simp

/-- With no spouses anywhere, the spouse-only filter keeps every root. -/
theorem filterSpouseOnlyRoots_of_no_spouses {members : List Member}
    (hns : ∀ m ∈ members, m.spouseId = none ∧ m.secondParentId = none)
    (roots : List Member) : filterSpouseOnlyRoots roots members = roots := by
  unfold filterSpouseOnlyRoots
  apply List.filter_eq_self.mpr
  intro root _
  rw [getSpouses_nil hns]
  rfl

/-- Completeness: on an acyclic single-parent lineage with a unique root,
building from the root processes every member. -/
theorem c1_completeness {members : List Member} {r : Member} {rank : String → Nat}
    (hnd : (members.map Member.id).Nodup)
    (hns : ∀ m ∈ members, m.spouseId = none ∧ m.secondParentId = none)
    (hroots : findRoots members = [r])
    (hrank : ∀ m ∈ members, ∀ pid, m.parentId = some pid → rank pid < rank m.id)
    (hrm : r ∈ members) {node : FamilyNodeData} {p1 : Ids}
    (hb : buildSubtree members r [] 0 = (node, p1)) :
    ∀ x ∈ members, x.id ∈ p1 := by
  have hsb : buildSubtreeF (members.length + 1) members r [] 0 = some (node, p1) := by
    rw [buildSubtree_eq_some members r [] 0 hrm, hb]
  suffices h : ∀ k, ∀ x ∈ members, rank x.id < k → x.id ∈ p1 by
    exact fun x hx => h (rank x.id + 1) x hx (by omega)
  intro k
  induction k with
  | zero => intro x _ hlt; omega
  | succ k ihk =>
    intro x hx hlt
    by_cases hxr : x = r
    · subst hxr
      exact buildSubtreeF_mem_self _ members x [] 0 node p1 hsb
    · have hxnr : x ∉ findRoots members := by
        rw [hroots]
        intro hmem
        rcases List.mem_cons.mp hmem with rfl | hmem
        · exact hxr rfl
        · cases hmem
      have hpar : inTreeParent x.parentId (members.map Member.id) = true := by
        by_contra hcon
        apply hxnr
        rw [mem_findRoots_iff]
        refine ⟨hx, by revert hcon; cases inTreeParent x.parentId (members.map Member.id) <;>
          simp, ?_⟩
        rw [(hns x hx).2]
        rfl
      obtain ⟨pid, hpid, hpne, hpin⟩ := inTreeParent_eq_true_iff.mp hpar
      obtain ⟨P, hP, hPid⟩ := List.mem_map.mp hpin
      have hrankP : rank pid < rank x.id := hrank x hx pid hpid
      have hPp1 : P.id ∈ p1 := by
        apply ihk P hP
        rw [hPid]
        omega
      have hclosed := buildSubtreeF_closed (members.length + 1) members r [] 0 node p1
        hsb P hP hPp1
      rcases hclosed with hin | hclosed
      · cases hin
      · exact hclosed x hx (Or.inl (by rw [hPid]; exact hpid))

/-- **C1 (counterexample).** The triangle `r`, `s`, `c` (where `c` is the
child of the parentless partners `r` and `s`) is a non-empty, acyclic,
single connected lineage, and the builder does return a single non-virtual
root; but the member `s` is merged into `r`'s node as a spouse summary and
never appears as a primary `attributes.id`, so the reachable id set misses
`s` and is not the full input id set. -/
theorem c1_roundtrip_counterexample :
    optCollectIds (transformToTreeData c1CounterMembers) = ["r", "c"] ∧
    c1CounterMembers.map Member.id = ["r", "s", "c"] ∧
    ¬(∀ x ∈ c1CounterMembers.map Member.id,
        x ∈ optCollectIds (transformToTreeData c1CounterMembers)) := by decide

/-- **C1 (amended).** For a non-empty member collection with unique ids,
no `spouseId` links and no second parents (so no spouse is merged into
another member's node), exactly one member without an in-tree parent, and
acyclic parent links (witnessed by a rank function), `transformToTreeData`
returns exactly one top-level node — the parentless member's node, no
synthesized virtual root — and the set of member ids reachable from it via
`attributes.id` and the transitive `children` lists is exactly the input id
set, each id exactly once. -/
theorem c1_roundtrip_amended (members : List Member) (r : Member) (rank : String → Nat)
    (hnd : (members.map Member.id).Nodup)
    (hns : ∀ m ∈ members, m.spouseId = none ∧ m.secondParentId = none)
    (hroots : findRoots members = [r])
    (hrank : ∀ m ∈ members, ∀ pid, m.parentId = some pid → rank pid < rank m.id) :
    ∃ node, transformToTreeData members = some node ∧
      node.attributes.id = r.id ∧
      (collectIds node).Perm (members.map Member.id) := by
  have hrm : r ∈ members := by
    have : r ∈ findRoots members := by rw [hroots]; exact List.mem_cons_self r []
    exact List.mem_of_mem_filter this
  obtain ⟨node, p1, hb⟩ : ∃ node p1, buildSubtree members r [] 0 = (node, p1) :=
    ⟨_, _, rfl⟩
  have hsb : buildSubtreeF (members.length + 1) members r [] 0 = some (node, p1) := by
    rw [buildSubtree_eq_some members r [] 0 hrm, hb]
  have hcomp := c1_completeness hnd hns hroots hrank hrm hb
  have hremaining : members.filter (fun m => !(decide (m.id ∈ p1))) = [] := by
    apply List.filter_eq_nil.mpr
    intro m hm
    simp [hcomp m hm]
  have hfil := filterSpouseOnlyRoots_of_no_spouses hns [r]
  refine ⟨node, ?_, ?_, ?_⟩
  · cases members with
    | nil => simp [findRoots] at hroots
    | cons m0 rest =>
      simp only [transformToTreeData, hroots, hfil, ite_self]
      have hroot1 : List.foldl (rootStep (m0 :: rest)) ([], []) [r] = ([node], p1) := by
        rw [List.foldl_cons, List.foldl_nil]
        unfold rootStep
        dsimp only
        rw [if_neg (List.not_mem_nil r.id), hb]
        rfl
      simp [hroot1, hremaining]
  · exact buildSubtreeF_attr_id _ members r [] 0 node p1 hsb
  · have hproc := buildSubtreeF_processed hns _ r [] 0 node p1 hsb
    obtain ⟨hndc, hsubc, -⟩ := buildSubtreeF_collect _ members r [] 0 node p1 hsb
    have hbound := buildSubtreeF_bounded _ members r [] 0 (node, p1) hrm hsb
    have hsubids : ∀ x ∈ collectIds node, x ∈ members.map Member.id := by
      intro x hx
      rcases hbound x (hsubc x hx) with hin | hin
      · cases hin
      · exact hin
    have hsup : ∀ x ∈ members.map Member.id, x ∈ collectIds node := by
      intro x hx
      obtain ⟨m, hm, rfl⟩ := List.mem_map.mp hx
      have := hcomp m hm
      rcases (hproc m.id).mp this with hin | hin
      · cases hin
      · exact hin
    exact (List.perm_ext_iff_of_nodup hndc hnd).mpr fun a =>
      ⟨fun ha => hsubids a ha, fun ha => hsup a ha⟩

/-- Witness for C1 (amended): the two-member chain `r ← c` yields the single
root node `r` whose reachable ids are exactly `{r, c}`. -/
theorem c1_roundtrip_amended_witness :
    ∃ node, transformToTreeData c1WitnessMembers = some node ∧
      node.attributes.id = (mkMember "r").id ∧
      (collectIds node).Perm (c1WitnessMembers.map Member.id) :=
  c1_roundtrip_amended c1WitnessMembers (mkMember "r")
    (fun s => if s = "r" then 0 else 1)
    (by decide) (by decide) (by decide)
    (by
      intro m hm pid hpid
      rcases List.mem_cons.mp hm with rfl | hm
      · simp [mkMember] at hpid
      · rcases List.mem_cons.mp hm with rfl | hm
        · simp [mkMember] at hpid
          subst hpid
          simp [mkMember]
        · cases hm)

/-- One pass of the root loop never shortens the accumulated node list. -/
lemma rootStep_length (members : List Member) (a : List FamilyNodeData × Ids) (x : Member) :
    a.1.length ≤ (rootStep members a x).1.length := by
  unfold rootStep
  split
  · exact Nat.le_refl _
  · simp

/-- The root loop never shortens the accumulated node list. -/
lemma foldl_rootStep_length (members : List Member) (l : List Member)
    (a : List FamilyNodeData × Ids) :
    a.1.length ≤ (List.foldl (rootStep members) a l).1.length := by
  induction l generalizing a with
  | nil => exact Nat.le_refl _
  | cons x xs ih => exact Nat.le_trans (rootStep_length members a x) (ih _)

/-- One pass of the trailing loop never shortens the accumulated node list. -/
lemma remainingStep_length (members : List Member) (a : List FamilyNodeData × Ids) (x : Member) :
    a.1.length ≤ (remainingStep members a x).1.length := by
  unfold remainingStep
  simp

/-- The trailing loop never shortens the accumulated node list. -/
lemma foldl_remainingStep_length (members : List Member) (l : List Member)
    (a : List FamilyNodeData × Ids) :
    a.1.length ≤ (List.foldl (remainingStep members) a l).1.length := by
  induction l generalizing a with
  | nil => exact Nat.le_refl _
  | cons x xs ih => exact Nat.le_trans (remainingStep_length members a x) (ih _)

/-- Starting from the empty accumulator, the root loop over a nonempty root
list emits at least one node: the first root is never in the (empty) processed
set, so its pass appends a node, and later passes only append. -/
lemma foldl_rootStep_pos (members : List Member) (roots : List Member)
    (hr : roots.length ≠ 0) :
    1 ≤ (List.foldl (rootStep members) (([], []) : List FamilyNodeData × Ids) roots).1.length := by
  rcases roots with _ | ⟨r, rs⟩
  · exact absurd rfl hr
  · rw [List.foldl_cons]
    refine Nat.le_trans ?_ (foldl_rootStep_length members rs _)
    unfold rootStep
    rw [if_neg (List.not_mem_nil r.id)]
    simp

/-- The common tail of `transformToTreeData` past root selection: with a
nonempty root list the emitted node list is nonempty, so the arm returning
`none` (guarded by an empty node list) is unreachable. -/
lemma transform_cascade_ne_none (M : List Member) (roots : List Member)
    (hz : roots.length ≠ 0) :
    (let rn := List.foldl (rootStep M) (([], []) : List FamilyNodeData × Ids) roots
     let remaining := M.filter fun m => !(decide (m.id ∈ rn.2))
     let F := List.foldl (remainingStep M) (rn.1, rn.2) remaining
     if (F.1.length == 1) = true then F.1.head?
     else if (F.1.length == 0) = true then none
     else some (FamilyNodeData.mk "Family"
       { id := "root", birthYear := 0, generation := -1, spouses := [] } F.1)) ≠ none := by
  intro h
  dsimp only at h
  split at h
  next h1 =>
    rw [List.head?_eq_none_iff] at h
    rw [h] at h1
    simp at h1
  next h1 =>
    split at h
    next h0 =>
      rw [Nat.beq_eq_true_eq] at h0
      refine absurd h0 ?_
      refine Nat.pos_iff_ne_zero.mp ?_
      refine Nat.lt_of_lt_of_le Nat.zero_lt_one ?_
      refine Nat.le_trans ?_ (foldl_remainingStep_length _ _ _)
      exact foldl_rootStep_pos _ _ hz
    next h0 =>
      exact Option.noConfusion h

/-- C8: `transformToTreeData` returns `none` exactly on the empty collection.
On any nonempty collection — whatever the parent links look like — some node
is returned: either the no-roots fallback subtree of the first member, or the
single root, or the synthesized "Family" virtual root; the `none` arm guarded
by an empty root-node list is unreachable because the root loop starts from a
nonempty root list and an empty processed set, hence emits at least one node. -/
theorem c8_none_iff_empty (members : List Member) :
    transformToTreeData members = none ↔ members = [] := by
  constructor
  · intro h
    cases members with
    | nil => rfl
    | cons m0 rest =>
      exfalso
      unfold transformToTreeData at h
      dsimp only at h
      split at h
      · split at h
        · exact Option.noConfusion h
        · rename_i hz
          exact transform_cascade_ne_none _ _ (fun he => hz (by rw [he]; rfl)) h
      · split at h
        · exact Option.noConfusion h
        · rename_i hz
          exact transform_cascade_ne_none _ _ (fun he => hz (by rw [he]; rfl)) h
  · intro h
    subst h
    rfl

end FamilyTree
